import Mathlib

/-!
# Verification of the contact-detector core

A shallow embedding of the core of the `contact-detector` program
(hexahedral-mesh surface extraction and contact-pair matching) together
with proofs and refutations of the specified properties.

Conventions of the embedding:

* Rust `usize` indices are modelled as `ℕ` (no index arithmetic in the
  source ever wraps, so no modular reduction is needed).
* Rust `f64` values are modelled as `ℝ`; the handful of places where the
  source relies on genuinely finite floats (the `f64::MAX` / `f64::MIN`
  sentinels used as fold seeds) are modelled by the exact real value of
  those constants, and theorems that depend on them carry an explicit
  boundedness hypothesis that every actual `f64` satisfies.
* Rust `HashMap`s are modelled as insertion-ordered association lists;
  where the source *iterates* over a hash map (an order that the Rust
  standard library randomizes per process) the iteration order is an
  explicit parameter of the model, so that order-(in)dependence can be
  stated and settled honestly.
* Fallible Rust code (`Result`) is modelled with `Except`; a Rust panic
  (out-of-bounds slice index) is modelled with `Option`, `none` meaning
  the program dies without producing a value.
-/

namespace ContactDetector

/-! ## Quad faces and the canonical form (src/mesh/types.rs) -/

/-- A quadrilateral face: 4 node indices in counter-clockwise order
(`QuadFace` in `src/mesh/types.rs`, field `node_ids : [usize; 4]`). -/
structure QuadFace where
  n0 : ℕ
  n1 : ℕ
  n2 : ℕ
  n3 : ℕ
deriving DecidableEq

namespace QuadFace

/-- `nodes.rotate_left k` for `k ≤ 3` (the only values the source produces:
the argument is the position of the minimal entry of a 4-array). -/
def rotl (f : QuadFace) : ℕ → QuadFace
  | 0 => f
  | 1 => ⟨f.n1, f.n2, f.n3, f.n0⟩
  | 2 => ⟨f.n2, f.n3, f.n0, f.n1⟩
  | 3 => ⟨f.n3, f.n0, f.n1, f.n2⟩
  | _ + 4 => f

/-- The index of the minimum node, mirroring
`nodes.iter().enumerate().min_by_key(|(_, &n)| n)`: Rust's `min_by_key`
keeps the first of several equal minima, i.e. it replaces the accumulator
only on a strictly smaller key. -/
def minIndex (f : QuadFace) : ℕ :=
  (List.foldl (fun acc p => if p.2 < acc.2 then p else acc) (0, f.n0)
    [(1, f.n1), (2, f.n2), (3, f.n3)]).1

/-- `[nodes[0], nodes[3], nodes[2], nodes[1]]` — the reversed winding that
keeps the head in place, as computed by `QuadFace::canonical`. -/
def revKeepHead (f : QuadFace) : QuadFace := ⟨f.n0, f.n3, f.n2, f.n1⟩

/-- Rust slice comparison `reversed[1..] < nodes[1..]`: lexicographic
order on the 3-element tails. -/
def tailLt (f g : QuadFace) : Prop :=
  f.n1 < g.n1 ∨ (f.n1 = g.n1 ∧ (f.n2 < g.n2 ∨ (f.n2 = g.n2 ∧ f.n3 < g.n3)))

instance (f g : QuadFace) : Decidable (tailLt f g) := by
  unfold tailLt; exact inferInstance

/-- `QuadFace::canonical`: rotate the minimum node to the front
(`nodes.rotate_left(min_idx)`), then pick the lexicographically smaller of
that rotation (`nodes`) and its head-fixed reversal (`reversed`). -/
def canonical (f : QuadFace) : QuadFace :=
  if (f.rotl f.minIndex).revKeepHead.tailLt (f.rotl f.minIndex)
  then (f.rotl f.minIndex).revKeepHead
  else f.rotl f.minIndex

/-- The four node indices are pairwise distinct (the well-formedness
condition the specification imposes on quad faces). -/
def distinctNodes (f : QuadFace) : Prop :=
  f.n0 ≠ f.n1 ∧ f.n0 ≠ f.n2 ∧ f.n0 ≠ f.n3 ∧ f.n1 ≠ f.n2 ∧ f.n1 ≠ f.n3 ∧ f.n2 ≠ f.n3

instance (f : QuadFace) : Decidable (distinctNodes f) := by
  unfold distinctNodes; exact inferInstance

/-- The node set of a face. -/
def nodeFinset (f : QuadFace) : Finset ℕ := {f.n0, f.n1, f.n2, f.n3}

/-- The dihedral orbit of a face: its four rotations and their head-fixed
reversals, i.e. every tuple with the same cyclic order up to rotation and
reflection. -/
def dihedralOrbit (f : QuadFace) : List QuadFace :=
  [f.rotl 0, f.rotl 1, f.rotl 2, f.rotl 3,
   (f.rotl 0).revKeepHead, (f.rotl 1).revKeepHead,
   (f.rotl 2).revKeepHead, (f.rotl 3).revKeepHead]

end QuadFace
/-! ## Geometry primitives (src/mesh/geometry.rs)

`f64` is modelled by `ℝ`.  These definitions are `noncomputable` because
real division, square root and arc-cosine are; concrete evaluations in the
theorems below go through `simp`/`norm_num` instead of kernel reduction. -/

/-- A 3-vector of doubles.  `nalgebra`'s `Point3<f64>` and `Vector3<f64>`
are both coordinate triples; the embedding uses one type for both. -/
structure Vec3 where
  x : ℝ
  y : ℝ
  z : ℝ

instance : Inhabited Vec3 := ⟨⟨0, 0, 0⟩⟩

namespace Vec3

def add (a b : Vec3) : Vec3 := ⟨a.x + b.x, a.y + b.y, a.z + b.z⟩

def sub (a b : Vec3) : Vec3 := ⟨a.x - b.x, a.y - b.y, a.z - b.z⟩

def dot (a b : Vec3) : ℝ := a.x * b.x + a.y * b.y + a.z * b.z

def cross (a b : Vec3) : Vec3 :=
  ⟨a.y * b.z - a.z * b.y, a.z * b.x - a.x * b.z, a.x * b.y - a.y * b.x⟩

/-- `nalgebra`'s Euclidean `norm`. -/
noncomputable def norm (a : Vec3) : ℝ :=
  Real.sqrt (a.x * a.x + a.y * a.y + a.z * a.z)

/-- Scalar multiple `t * a`. -/
def smul (t : ℝ) (a : Vec3) : Vec3 := ⟨t * a.x, t * a.y, t * a.z⟩

/-- Componentwise division by a scalar (`normal / norm`). -/
noncomputable def divScalar (a : Vec3) (t : ℝ) : Vec3 := ⟨a.x / t, a.y / t, a.z / t⟩

end Vec3

/-- `signed_distance_to_plane`: `(point − plane_point) · plane_normal`. -/
def signed_distance_to_plane (point plane_point plane_normal : Vec3) : ℝ :=
  (point.sub plane_point).dot plane_normal

/-- `project_point_to_plane`: `point − dist * plane_normal`. -/
def project_point_to_plane (point plane_point plane_normal : Vec3) : Vec3 :=
  point.sub (Vec3.smul (signed_distance_to_plane point plane_point plane_normal)
    plane_normal)

/-- Rust's `f64::clamp(lo, hi)` for `lo ≤ hi`. -/
noncomputable def clampR (x lo hi : ℝ) : ℝ :=
  if x < lo then lo else if hi < x then hi else x

/-- `angle_between_vectors`: the angle between two vectors in degrees,
`acos(clamp(dot/(|v1||v2|), -1, 1)).to_degrees()`, and `0` when the norm
product is below `1e-12`. -/
noncomputable def angle_between_vectors (v1 v2 : Vec3) : ℝ :=
  if v1.norm * v2.norm < 1e-12 then 0
  else Real.arccos (clampR (v1.dot v2 / (v1.norm * v2.norm)) (-1) 1) *
    (180 / Real.pi)

/-! ## Contact types (src/contact/types.rs) -/

/-- `ContactCriteria`. -/
structure ContactCriteria where
  max_gap_distance : ℝ
  max_penetration : ℝ
  max_normal_angle : ℝ
  search_radius_multiplier : ℝ

namespace ContactCriteria

/-- `ContactCriteria::search_radius`. -/
def search_radius (c : ContactCriteria) : ℝ :=
  c.max_gap_distance * c.search_radius_multiplier

/-- `ContactCriteria::is_in_range`:
`distance >= -max_penetration && distance <= max_gap_distance`. -/
def is_in_range (c : ContactCriteria) (distance : ℝ) : Prop :=
  -c.max_penetration ≤ distance ∧ distance ≤ c.max_gap_distance

/-- `ContactCriteria::is_angle_valid`: `angle <= max_normal_angle`. -/
def is_angle_valid (c : ContactCriteria) (angle : ℝ) : Prop :=
  angle ≤ c.max_normal_angle

noncomputable instance (c : ContactCriteria) (d : ℝ) :
    Decidable (is_in_range c d) := by unfold is_in_range; exact inferInstance

noncomputable instance (c : ContactCriteria) (a : ℝ) :
    Decidable (is_angle_valid c a) := by unfold is_angle_valid; exact inferInstance

end ContactCriteria

/-- `SurfaceMesh` (src/mesh/types.rs): a surface patch with its per-face
geometric arrays. -/
structure SurfaceMesh where
  part_name : String
  faces : List QuadFace
  face_normals : List Vec3
  face_centroids : List Vec3
  face_areas : List ℝ
  nodes : List Vec3

/-- `SurfaceMesh::total_area`. -/
def SurfaceMesh.total_area (s : SurfaceMesh) : ℝ := s.face_areas.sum

/-- `ContactPair`. -/
structure ContactPair where
  surface_a_face_id : ℕ
  surface_b_face_id : ℕ
  distance : ℝ
  normal_angle : ℝ
  contact_point : Vec3

/-- `ContactResults`. -/
structure ContactResults where
  surface_a_name : String
  surface_b_name : String
  pairs : List ContactPair
  unpaired_a : List ℕ
  unpaired_b : List ℕ
  criteria : ContactCriteria

/-- The exact real value of `f64::MAX`, the seed of the best-distance
fold in `find_best_match`. -/
def f64MAX : ℝ := 2 ^ 1024 - 2 ^ 971

/-- The exact real value of `f64::MIN` (`= -f64::MAX`). -/
def f64MIN : ℝ := -(2 ^ 1024 - 2 ^ 971)

/-! ## Contact detection (src/contact/detection.rs)

The k-d tree query `tree_b.within::<SquaredEuclidean>(centroid_a, r*r)`
returns the indices of all B-centroids within squared distance `r*r`, in
an order the `kiddo` library does not specify.  The model therefore takes
the per-A-face candidate enumeration as an explicit parameter
`enumOf : ℕ → List ℕ`; theorems about the spatial query carry a
hypothesis characterizing `enumOf i` as exactly that candidate set.
A Rust panic (out-of-bounds slice index) is modelled by `none`. -/

/-- The candidate loop of `find_best_match`: scans the enumerated B-face
candidates, keeping the pair with the smallest `|distance|` (strict
improvement only, so the first-enumerated candidate wins ties). -/
noncomputable def fbmLoop (B : SurfaceMesh) (c : ContactCriteria) (i : ℕ)
    (cA nA : Vec3) :
    List ℕ → Option ContactPair → ℝ → Option (Option ContactPair)
  | [], best, _ => some best
  | j :: rest, best, bestAbs =>
    match B.face_centroids.get? j, B.face_normals.get? j with
    | some cB, some nB =>
      let d := signed_distance_to_plane cB cA nA
      if c.is_in_range d then
        let ang := angle_between_vectors nA nB
        if c.is_angle_valid ang then
          if |d| < bestAbs then
            fbmLoop B c i cA nA rest
              (some ⟨i, j, d, ang, project_point_to_plane cA cB nB⟩) |d|
          else fbmLoop B c i cA nA rest best bestAbs
        else fbmLoop B c i cA nA rest best bestAbs
      else fbmLoop B c i cA nA rest best bestAbs
    | _, _ => none

/-- `find_best_match`: for A-face `i`, scan the candidates `cand`
(the k-d tree query result) and return the best acceptable pair. -/
noncomputable def find_best_match (i : ℕ) (A B : SurfaceMesh)
    (c : ContactCriteria) (cand : List ℕ) : Option (Option ContactPair) :=
  match A.face_centroids.get? i, A.face_normals.get? i with
  | some cA, some nA => fbmLoop B c i cA nA cand none f64MAX
  | _, _ => none

/-- The per-A-face map of `detect_contact_pairs` (sequential path; the
parallel path is specified to produce the same list). -/
noncomputable def frLoop (A B : SurfaceMesh) (c : ContactCriteria)
    (enumOf : ℕ → List ℕ) : List ℕ → Option (List (Option ContactPair))
  | [] => some []
  | i :: rest =>
    match find_best_match i A B c (enumOf i), frLoop A B c enumOf rest with
    | some r, some rs => some (r :: rs)
    | _, _ => none

/-- The collection loop of `detect_contact_pairs`: position `k` with a
match contributes the pair, position `k` without one goes to
`unpaired_a`. -/
def collectResults : List (Option ContactPair) → ℕ → List ContactPair × List ℕ
  | [], _ => ([], [])
  | some p :: rs, k =>
    let pu := collectResults rs (k + 1)
    (p :: pu.1, pu.2)
  | none :: rs, k =>
    let pu := collectResults rs (k + 1)
    (pu.1, k :: pu.2)

/-- `detect_contact_pairs`.  The Rust function's `Result` is always `Ok`;
the `Option` here models the only remaining failure mode, a panic on an
out-of-bounds index. -/
noncomputable def detect_contact_pairs (A B : SurfaceMesh)
    (c : ContactCriteria) (enumOf : ℕ → List ℕ) : Option ContactResults :=
  match frLoop A B c enumOf (List.range A.faces.length) with
  | none => none
  | some rs =>
    let pu := collectResults rs 0
    some { surface_a_name := A.part_name
           surface_b_name := B.part_name
           pairs := pu.1
           unpaired_a := pu.2
           unpaired_b := (List.range B.faces.length).filter
             (fun j => decide (j ∉ pu.1.map ContactPair.surface_b_face_id))
           criteria := c }

/-! ## Result accessors and metrics (src/contact/types.rs, metrics.rs) -/

/-- `ContactResults::avg_distance`: the unweighted arithmetic mean of the
pair distances, `0` if there are no pairs. -/
noncomputable def ContactResults.avg_distance (r : ContactResults) : ℝ :=
  if r.pairs.isEmpty then 0
  else (r.pairs.map ContactPair.distance).sum / (r.pairs.length : ℝ)

/-- `SurfaceMetrics`. -/
structure SurfaceMetrics where
  total_area : ℝ
  paired_area : ℝ
  unpaired_area : ℝ
  avg_distance : ℝ
  std_dev_distance : ℝ
  min_distance : ℝ
  max_distance : ℝ
  avg_normal_angle : ℝ
  num_pairs : ℕ
  num_unpaired : ℕ

/-- The accumulation loop of `SurfaceMetrics::compute`: running
`(paired_area, weighted_distance_sum, angle_sum, min_dist, max_dist)`.
The Rust index `surface.face_areas[pair.surface_a_face_id]` panics when
the id is out of range; the panic is modelled by `none`. -/
noncomputable def metricsFold (areas : List ℝ) :
    List ContactPair → ℝ × ℝ × ℝ × ℝ × ℝ → Option (ℝ × ℝ × ℝ × ℝ × ℝ)
  | [], st => some st
  | p :: ps, (pa, ws, ans, mn, mx) =>
    match areas.get? p.surface_a_face_id with
    | none => none
    | some a =>
      metricsFold areas ps
        (pa + a, ws + p.distance * a, ans + p.normal_angle,
         min mn p.distance, max mx p.distance)

/-- The standard-deviation loop of `SurfaceMetrics::compute`: running
`variance_sum`, with the same panicking index on `face_areas`. -/
noncomputable def varianceFold (areas : List ℝ) (avg : ℝ) :
    List ContactPair → ℝ → Option ℝ
  | [], acc => some acc
  | p :: ps, acc =>
    match areas.get? p.surface_a_face_id with
    | none => none
    | some a =>
      varianceFold areas avg ps
        (acc + (p.distance - avg) * (p.distance - avg) * a)

/-- `SurfaceMetrics::compute`.  A panic in either indexing loop is
modelled by `none`. -/
noncomputable def SurfaceMetrics.compute (results : ContactResults)
    (surface : SurfaceMesh) : Option SurfaceMetrics :=
  match metricsFold surface.face_areas results.pairs (0, 0, 0, f64MAX, f64MIN) with
  | none => none
  | some st =>
    match varianceFold surface.face_areas
        (if 0 < results.pairs.length then st.2.1 / st.1 else 0)
        results.pairs 0 with
    | none => none
    | some variance_sum =>
      some { total_area := surface.face_areas.sum
             paired_area := st.1
             unpaired_area := surface.face_areas.sum - st.1
             avg_distance :=
               if 0 < results.pairs.length then st.2.1 / st.1 else 0
             std_dev_distance :=
               if 0 < st.1 then Real.sqrt (variance_sum / st.1) else 0
             min_distance :=
               if 0 < results.pairs.length then st.2.2.2.1 else 0
             max_distance :=
               if 0 < results.pairs.length then st.2.2.2.2 else 0
             avg_normal_angle :=
               if 0 < results.pairs.length then
                 st.2.2.1 / (results.pairs.length : ℝ)
               else 0
             num_pairs := results.pairs.length
             num_unpaired := results.unpaired_a.length }

/-! ## Best-match minimality (claim C5) -/

/-- The signed distance `find_best_match` computes for B-candidate `j`
against A-face `i` (through the per-face arrays). -/
noncomputable def cand_distance (A B : SurfaceMesh) (i j : ℕ) : ℝ :=
  signed_distance_to_plane (B.face_centroids.getD j default)
    (A.face_centroids.getD i default) (A.face_normals.getD i default)

/-- The normal angle `find_best_match` computes for B-candidate `j`
against A-face `i`. -/
noncomputable def cand_angle (A B : SurfaceMesh) (i j : ℕ) : ℝ :=
  angle_between_vectors (A.face_normals.getD i default)
    (B.face_normals.getD j default)

/-- Candidate `j` passes both acceptance tests against A-face `i`. -/
def cand_passes (A B : SurfaceMesh) (c : ContactCriteria) (i j : ℕ) : Prop :=
  c.is_in_range (cand_distance A B i j) ∧
  c.is_angle_valid (cand_angle A B i j)

/-- Loop-local distance for a fixed A-centroid/normal. -/
noncomputable def fbDist (B : SurfaceMesh) (cA nA : Vec3) (j : ℕ) : ℝ :=
  signed_distance_to_plane (B.face_centroids.getD j default) cA nA

/-- Loop-local angle for a fixed A-normal. -/
noncomputable def fbAngle (B : SurfaceMesh) (nA : Vec3) (j : ℕ) : ℝ :=
  angle_between_vectors nA (B.face_normals.getD j default)

/-- Loop-local acceptance. -/
def fbPass (B : SurfaceMesh) (c : ContactCriteria) (cA nA : Vec3) (j : ℕ) :
    Prop :=
  c.is_in_range (fbDist B cA nA j) ∧ c.is_angle_valid (fbAngle B nA j)

/-- The area-weighted paired area, as the specification defines it. -/
noncomputable def specPairedArea (r : ContactResults) (s : SurfaceMesh) : ℝ :=
  (r.pairs.map (fun p => s.face_areas.getD p.surface_a_face_id 0)).sum

/-- The A-face-area-weighted mean of pair distances, as the specification
defines `avg_distance`. -/
noncomputable def specWeightedMean (r : ContactResults) (s : SurfaceMesh) : ℝ :=
  (r.pairs.map (fun p =>
    p.distance * s.face_areas.getD p.surface_a_face_id 0)).sum
    / specPairedArea r s

/-! ## Concrete example data for witnesses and counterexamples -/

/-- A one-face surface at the origin with normal `+z` and area `1`. -/
def surfA1 : SurfaceMesh :=
  ⟨"A", [⟨0, 1, 2, 3⟩], [⟨0, 0, 1⟩], [⟨0, 0, 0⟩], [1], []⟩

/-- A one-face surface with the same centroid and normal as `surfA1`. -/
def surfB1 : SurfaceMesh :=
  ⟨"B", [⟨4, 5, 6, 7⟩], [⟨0, 0, 1⟩], [⟨0, 0, 0⟩], [1], []⟩

/-- A zero-face surface. -/
def surfB0 : SurfaceMesh := ⟨"B", [], [], [], [], []⟩

/-- The default criteria record of the source
(`ContactCriteria::default`). -/
def crit1 : ContactCriteria := ⟨0.005, 0.001, 45, 2⟩

/-- A criteria record violating every §4.3.1 constraint: negative
tolerances and a non-positive search multiplier. -/
def critNeg : ContactCriteria := ⟨-1, -1, -1, 0⟩

/-- Candidate enumeration: face 0 of B. -/
def enum1 : ℕ → List ℕ := fun _ => [0]

/-- Empty candidate enumeration. -/
def enumNone : ℕ → List ℕ := fun _ => []

/-- The contact pair `detect_contact_pairs surfA1 surfB1 crit1 enum1`
produces. -/
def pair1 : ContactPair := ⟨0, 0, 0, 0, ⟨0, 0, 0⟩⟩

/-- The result of `detect_contact_pairs surfA1 surfB1 crit1 enum1`. -/
def res1 : ContactResults := ⟨"A", "B", [pair1], [], [], crit1⟩

/-- The result of `detect_contact_pairs surfA1 surfB0 critNeg enumNone`. -/
def resNeg : ContactResults := ⟨"A", "B", [], [0], [], critNeg⟩

/-- Example result for separating the two `avg_distance` notions:
distances `0` and `1` on A-faces `0` and `1`. -/
def resC10 : ContactResults :=
  ⟨"A", "B", [⟨0, 0, 0, 0, ⟨0, 0, 0⟩⟩, ⟨1, 1, 1, 0, ⟨0, 0, 0⟩⟩], [], [], crit1⟩

/-- Example A-side surface with unequal face areas `1` and `3`. -/
def surfC10 : SurfaceMesh :=
  ⟨"A", [⟨0, 1, 2, 3⟩, ⟨4, 5, 6, 7⟩], [], [], [1, 3], []⟩

/-! ## Mesh data model and surface extraction (src/mesh/types.rs,
src/mesh/surface.rs)

Hash maps built by the extractor are modelled as insertion-ordered
association lists.  Where the source *iterates* a `HashMap` — over the
boundary-face map in `group_by_block` and over the per-block face map —
the iteration order is randomized per process by Rust's `RandomState`;
the model therefore takes those orders (`faceOrder`, `blockOrder`) as
parameters, with validity meaning they are permutations of the
insertion-ordered lists. -/

/-- `HexElement`: eight node indices in the Exodus II canonical order. -/
structure HexElement where
  n0 : ℕ
  n1 : ℕ
  n2 : ℕ
  n3 : ℕ
  n4 : ℕ
  n5 : ℕ
  n6 : ℕ
  n7 : ℕ
deriving DecidableEq

/-- `HexElement::faces`: bottom, top, front, right, back, left. -/
def HexElement.faces (h : HexElement) : List QuadFace :=
  [⟨h.n0, h.n3, h.n2, h.n1⟩, ⟨h.n4, h.n5, h.n6, h.n7⟩,
   ⟨h.n0, h.n1, h.n5, h.n4⟩, ⟨h.n1, h.n2, h.n6, h.n5⟩,
   ⟨h.n2, h.n3, h.n7, h.n6⟩, ⟨h.n3, h.n0, h.n4, h.n7⟩]

/-- `Mesh`.  The `node_sets`/`side_sets` collections are passed through
unchanged by the core and play no part in extraction, so they are not
modelled. -/
structure Mesh where
  nodes : List Vec3
  elements : List HexElement
  element_blocks : List (String × List ℕ)

/-- `ContactDetectorError` (src/error.rs), restricted to the variants the
core can produce. -/
inductive ContactDetectorError where
  | InvalidMeshTopology (msg : String)
  | ElementBlockNotFound (msg : String)
  | GeometryError (msg : String)
  | ConfigError (msg : String)
deriving DecidableEq

/-- `map.entry(k).or_default().push(v)` on an insertion-ordered
association list. -/
def assocPush {κ α : Type _} [DecidableEq κ] :
    List (κ × List α) → κ → α → List (κ × List α)
  | [], k, v => [(k, [v])]
  | (k', vs) :: rest, k, v =>
    if k' = k then (k', vs ++ [v]) :: rest
    else (k', vs) :: assocPush rest k v

/-- `build_face_adjacency`: canonical face ↦ list of containing elements,
keys in first-insertion order.  (The source wraps this in `Result` but
never fails.) -/
def build_face_adjacency (mesh : Mesh) : List (QuadFace × List ℕ) :=
  List.foldl (fun adj (ie : ℕ × HexElement) =>
      List.foldl (fun adj f => assocPush adj f.canonical ie.1) adj ie.2.faces)
    [] mesh.elements.enum

/-- `extract_boundary_faces`: the faces adjacent to exactly one element,
here listed in the map's insertion order (the real `HashMap` iteration
order is arbitrary; downstream code takes the order as a parameter). -/
def extract_boundary_faces (adj : List (QuadFace × List ℕ)) :
    List (QuadFace × ℕ) :=
  adj.filterMap (fun fe => match fe.2 with
    | [e] => some (fe.1, e)
    | _ => none)

/-- The element-to-block reverse map of `group_by_block` (last block
listing the element wins, as with repeated `HashMap::insert`). -/
def elemBlock (mesh : Mesh) (e : ℕ) : Option String :=
  List.foldl (fun acc bl => if e ∈ bl.2 then some bl.1 else acc)
    none mesh.element_blocks

/-- Grouping loop of `group_by_block`: push each boundary face under its
owning block, failing with `InvalidMeshTopology` when an element is in no
block. -/
def groupFacesLoop (mesh : Mesh) :
    List (QuadFace × ℕ) → List (String × List QuadFace) →
    Except ContactDetectorError (List (String × List QuadFace))
  | [], acc => .ok acc
  | (f, e) :: rest, acc =>
    match elemBlock mesh e with
    | none => .error (.InvalidMeshTopology
        ("Element " ++ toString e ++ " not found in any block"))
    | some name => groupFacesLoop mesh rest (assocPush acc name f)

/-- Association-list lookup for a block's face list. -/
def lookupBlock (m : List (String × List QuadFace)) (k : String) :
    List QuadFace :=
  ((m.find? (fun bl => bl.1 == k)).map Prod.snd).getD []

/-- `get_node`. -/
def get_node (nodes : List Vec3) (index : ℕ) :
    Except ContactDetectorError Vec3 :=
  match nodes.get? index with
  | some p => .ok p
  | none => .error (.InvalidMeshTopology
      ("Node index " ++ toString index ++ " out of bounds"))

/-- `compute_face_normal`: normalized cross product of the diagonals,
`GeometryError` when its length is below `1e-12`. -/
noncomputable def compute_face_normal (face : QuadFace) (nodes : List Vec3) :
    Except ContactDetectorError Vec3 :=
  match get_node nodes face.n0, get_node nodes face.n1,
      get_node nodes face.n2, get_node nodes face.n3 with
  | .ok n0, .ok n1, .ok n2, .ok n3 =>
    let normal := Vec3.cross (Vec3.sub n2 n0) (Vec3.sub n3 n1)
    if normal.norm < 1e-12 then
      .error (.GeometryError "Degenerate face (zero normal)")
    else .ok (normal.divScalar normal.norm)
  | .error e, _, _, _ => .error e
  | _, .error e, _, _ => .error e
  | _, _, .error e, _ => .error e
  | _, _, _, .error e => .error e

/-- `compute_face_centroid`: mean of the four vertices. -/
noncomputable def compute_face_centroid (face : QuadFace) (nodes : List Vec3) :
    Except ContactDetectorError Vec3 :=
  match get_node nodes face.n0, get_node nodes face.n1,
      get_node nodes face.n2, get_node nodes face.n3 with
  | .ok n0, .ok n1, .ok n2, .ok n3 =>
    .ok (Vec3.divScalar (Vec3.add (Vec3.add (Vec3.add n0 n1) n2) n3) 4)
  | .error e, _, _, _ => .error e
  | _, .error e, _, _ => .error e
  | _, _, .error e, _ => .error e
  | _, _, _, .error e => .error e

/-- `compute_face_area`: half the diagonal cross-product length,
`GeometryError` below `1e-12`. -/
noncomputable def compute_face_area (face : QuadFace) (nodes : List Vec3) :
    Except ContactDetectorError ℝ :=
  match get_node nodes face.n0, get_node nodes face.n1,
      get_node nodes face.n2, get_node nodes face.n3 with
  | .ok n0, .ok n1, .ok n2, .ok n3 =>
    let area := (Vec3.cross (Vec3.sub n2 n0) (Vec3.sub n3 n1)).norm / 2
    if area < 1e-12 then
      .error (.GeometryError "Degenerate face (zero area)")
    else .ok area
  | .error e, _, _, _ => .error e
  | _, .error e, _, _ => .error e
  | _, _, .error e, _ => .error e
  | _, _, _, .error e => .error e

/-- `collect::<Result<Vec<_>>>`: first error aborts. -/
def collectExcept {α β : Type _}
    (f : α → Except ContactDetectorError β) :
    List α → Except ContactDetectorError (List β)
  | [] => .ok []
  | a :: rest =>
    match f a with
    | .error e => .error e
    | .ok b =>
      match collectExcept f rest with
      | .error e => .error e
      | .ok bs => .ok (b :: bs)

/-- The (normal, centroid, area) triple computed per face by
`build_surface_mesh`. -/
noncomputable def face_props (face : QuadFace) (nodes : List Vec3) :
    Except ContactDetectorError (Vec3 × Vec3 × ℝ) :=
  match compute_face_normal face nodes with
  | .error e => .error e
  | .ok n =>
    match compute_face_centroid face nodes with
    | .error e => .error e
    | .ok c =>
      match compute_face_area face nodes with
      | .error e => .error e
      | .ok a => .ok (n, c, a)

/-- `build_surface_mesh` (sequential path; the parallel path is specified
to produce the identical arrays). -/
noncomputable def build_surface_mesh (part_name : String)
    (faces : List QuadFace) (nodes : List Vec3) :
    Except ContactDetectorError SurfaceMesh :=
  match collectExcept (fun f => face_props f nodes) faces with
  | .error e => .error e
  | .ok props => .ok ⟨part_name, faces, props.map (·.1),
      props.map (·.2.1), props.map (·.2.2), nodes⟩

/-- Normalized (min, max) edge key. -/
def normEdge (a b : ℕ) : ℕ × ℕ := if a < b then (a, b) else (b, a)

/-- `build_boundary_face_adjacency`: faces sharing an edge (each edge of
exactly two faces links them). -/
def build_boundary_face_adjacency (faces : List QuadFace) :
    List (ℕ × List ℕ) :=
  let edge_to_faces := List.foldl (fun m (fi : ℕ × QuadFace) =>
      assocPush (assocPush (assocPush (assocPush m
        (normEdge fi.2.n0 fi.2.n1) fi.1)
        (normEdge fi.2.n1 fi.2.n2) fi.1)
        (normEdge fi.2.n2 fi.2.n3) fi.1)
        (normEdge fi.2.n3 fi.2.n0) fi.1)
    [] faces.enum
  List.foldl (fun adj ev =>
      match ev.2 with
      | [a, b] => assocPush (assocPush adj a b) b a
      | _ => adj)
    [] edge_to_faces

/-- `face_adjacency.get(&idx)`, with `[]` standing for `None`. -/
def adjGet (adj : List (ℕ × List ℕ)) (i : ℕ) : List ℕ :=
  ((adj.find? (fun kv => kv.1 == i)).map Prod.snd).getD []

/-- The coplanarity threshold `MAX_COPLANAR_ANGLE` (degrees). -/
def MAX_COPLANAR_ANGLE : ℝ := 10

/-- The breadth-first flood fill of `subdivide_into_surface_patches`:
admit an unvisited edge-neighbor iff the angle between the *seed* normal
and its normal is at most the coplanarity threshold.  Each push marks its
face visited, so at most `|faces|` dequeues happen; `fuel = |faces|` makes
the recursion structural without changing the computed value. -/
noncomputable def bfsLoop (adj : List (ℕ × List ℕ)) (normals : List Vec3)
    (seedN : Vec3) :
    ℕ → List ℕ → List ℕ → List ℕ → List ℕ × List ℕ
  | _, [], vis, acc => (acc, vis)
  | 0, _ :: _, vis, acc => (acc, vis)
  | fuel + 1, cur :: qs, vis, acc =>
    let expand := List.foldl (fun (qv : List ℕ × List ℕ) nb =>
        if nb ∈ qv.2 then qv
        else if angle_between_vectors seedN (normals.getD nb default) ≤
            MAX_COPLANAR_ANGLE then
          (qv.1 ++ [nb], qv.2 ++ [nb])
        else qv)
      (qs, vis) (adjGet adj cur)
    bfsLoop adj normals seedN fuel expand.1 expand.2 (acc ++ [cur])

/-- The seed loop of `subdivide_into_surface_patches`: start a patch at
every not-yet-visited face, in face order; patch `k` is named
`<block>:patch_<k>`. -/
noncomputable def subdivideLoop (faces : List QuadFace) (nodes : List Vec3)
    (block_name : String) (adj : List (ℕ × List ℕ)) (normals : List Vec3) :
    List ℕ → List ℕ → List SurfaceMesh →
    Except ContactDetectorError (List SurfaceMesh)
  | [], _, patches => .ok patches
  | s :: rest, vis, patches =>
    if s ∈ vis then
      subdivideLoop faces nodes block_name adj normals rest vis patches
    else
      let bfs := bfsLoop adj normals (normals.getD s default) faces.length
        [s] (vis ++ [s]) []
      match build_surface_mesh
          (block_name ++ ":patch_" ++ toString patches.length)
          (bfs.1.map (fun i => faces.getD i ⟨0, 0, 0, 0⟩)) nodes with
      | .error e => .error e
      | .ok sm =>
        subdivideLoop faces nodes block_name adj normals rest bfs.2
          (patches ++ [sm])

/-- `subdivide_into_surface_patches`. -/
noncomputable def subdivide_into_surface_patches (faces : List QuadFace)
    (nodes : List Vec3) (block_name : String) :
    Except ContactDetectorError (List SurfaceMesh) :=
  if faces = [] then .ok []
  else
    match collectExcept (fun f => compute_face_normal f nodes) faces with
    | .error e => .error e
    | .ok normals =>
      subdivideLoop faces nodes block_name
        (build_boundary_face_adjacency faces) normals
        (List.range faces.length) [] []

/-- The per-block loop of `group_by_block`, iterating the block-face map
in the given (hash-iteration) order. -/
noncomputable def groupBlocksLoop (mesh : Mesh)
    (block_faces : List (String × List QuadFace)) :
    List String → List SurfaceMesh →
    Except ContactDetectorError (List SurfaceMesh)
  | [], surfaces => .ok surfaces
  | b :: rest, surfaces =>
    match subdivide_into_surface_patches (lookupBlock block_faces b)
        mesh.nodes b with
    | .error e => .error e
    | .ok patches => groupBlocksLoop mesh block_faces rest (surfaces ++ patches)

/-- `group_by_block`, with the two hash-iteration orders explicit. -/
noncomputable def group_by_block (mesh : Mesh)
    (boundary : List (QuadFace × ℕ)) (blockOrder : List String) :
    Except ContactDetectorError (List SurfaceMesh) :=
  match groupFacesLoop mesh boundary [] with
  | .error e => .error e
  | .ok block_faces => groupBlocksLoop mesh block_faces blockOrder []

/-- `extract_surface`, parameterized by the boundary-face iteration order
(`faceOrder`, a permutation of `extract_boundary_faces
(build_face_adjacency mesh)`) and the block iteration order. -/
noncomputable def extract_surface (mesh : Mesh)
    (faceOrder : List (QuadFace × ℕ)) (blockOrder : List String) :
    Except ContactDetectorError (List SurfaceMesh) :=
  group_by_block mesh faceOrder blockOrder

/-- A unit hex element on nodes 0–7. -/
def hexUnit : HexElement := ⟨0, 1, 2, 3, 4, 5, 6, 7⟩

/-- A mesh listing the same hex element three times (all §3 mesh
invariants hold: indices in range, block lists partition the element
index set), so every canonical face is contained by three elements. -/
def meshTriple : Mesh := ⟨[], [hexUnit, hexUnit, hexUnit], [("B", [0, 1, 2])]⟩

/-- Nodes of the unit cube, in Exodus II order. -/
def cubeNodes : List Vec3 :=
  [⟨0, 0, 0⟩, ⟨1, 0, 0⟩, ⟨1, 1, 0⟩, ⟨0, 1, 0⟩,
   ⟨0, 0, 1⟩, ⟨1, 0, 1⟩, ⟨1, 1, 1⟩, ⟨0, 1, 1⟩]

/-- A single-element unit-cube mesh with one block. -/
def cubeMesh : Mesh := ⟨cubeNodes, [hexUnit], [("B", [0])]⟩

/-- The boundary-face map of `cubeMesh` in insertion order. -/
def cubeBoundary : List (QuadFace × ℕ) :=
  [(⟨0, 1, 2, 3⟩, 0), (⟨4, 5, 6, 7⟩, 0), (⟨0, 1, 5, 4⟩, 0),
   (⟨1, 2, 6, 5⟩, 0), (⟨2, 3, 7, 6⟩, 0), (⟨0, 3, 7, 4⟩, 0)]

/-- The canonical boundary faces of the cube, in insertion order. -/
def cubeFaceList : List QuadFace :=
  [⟨0, 1, 2, 3⟩, ⟨4, 5, 6, 7⟩, ⟨0, 1, 5, 4⟩,
   ⟨1, 2, 6, 5⟩, ⟨2, 3, 7, 6⟩, ⟨0, 3, 7, 4⟩]

/-- The same faces in reversed iteration order. -/
def cubeFaceListRev : List QuadFace :=
  [⟨0, 3, 7, 4⟩, ⟨2, 3, 7, 6⟩, ⟨1, 2, 6, 5⟩,
   ⟨0, 1, 5, 4⟩, ⟨4, 5, 6, 7⟩, ⟨0, 1, 2, 3⟩]


namespace QuadFace

theorem mem_orbit_self (f : QuadFace) : f ∈ f.dihedralOrbit := by
  simp [dihedralOrbit, rotl]

theorem mem_orbit_trans {f g h : QuadFace} (hg : g ∈ f.dihedralOrbit)
    (hh : h ∈ g.dihedralOrbit) : h ∈ f.dihedralOrbit := by
  simp only [dihedralOrbit, rotl, revKeepHead, List.mem_cons,
    List.not_mem_nil, or_false] at hg hh ⊢
  rcases hg with hg | hg | hg | hg | hg | hg | hg | hg <;> subst hg <;>
    rcases hh with hh | hh | hh | hh | hh | hh | hh | hh <;> subst hh <;> simp

theorem mem_orbit_symm {f g : QuadFace} (hg : g ∈ f.dihedralOrbit) :
    f ∈ g.dihedralOrbit := by
  simp only [dihedralOrbit, rotl, revKeepHead, List.mem_cons,
    List.not_mem_nil, or_false] at hg ⊢
  rcases hg with hg | hg | hg | hg | hg | hg | hg | hg <;> subst hg <;> simp

/-- Closed form of `minIndex` as a decision tree, for case analysis. -/
theorem minIndex_eq (f : QuadFace) : f.minIndex =
    if f.n1 < f.n0 then
      (if f.n2 < f.n1 then (if f.n3 < f.n2 then 3 else 2)
       else (if f.n3 < f.n1 then 3 else 1))
    else
      (if f.n2 < f.n0 then (if f.n3 < f.n2 then 3 else 2)
       else (if f.n3 < f.n0 then 3 else 0)) := by
  unfold minIndex
  simp only [List.foldl]
  split_ifs <;> simp_all

theorem minIndex_lt_four (f : QuadFace) : f.minIndex < 4 := by
  rw [minIndex_eq]; split_ifs <;> omega

theorem rotl_mem_orbit (f : QuadFace) {k : ℕ} (hk : k < 4) :
    f.rotl k ∈ f.dihedralOrbit := by
  interval_cases k <;> simp [dihedralOrbit]

theorem rotl_revKeepHead_mem_orbit (f : QuadFace) {k : ℕ} (hk : k < 4) :
    (f.rotl k).revKeepHead ∈ f.dihedralOrbit := by
  interval_cases k <;> simp [dihedralOrbit]

theorem canonical_mem_orbit (f : QuadFace) : f.canonical ∈ f.dihedralOrbit := by
  unfold canonical
  by_cases h : (f.rotl f.minIndex).revKeepHead.tailLt (f.rotl f.minIndex)
  · simp only [h, if_pos]
    exact f.rotl_revKeepHead_mem_orbit f.minIndex_lt_four
  · simp only [h, if_neg, not_false_iff]
    exact f.rotl_mem_orbit f.minIndex_lt_four

theorem eta (f : QuadFace) : (⟨f.n0, f.n1, f.n2, f.n3⟩ : QuadFace) = f := rfl

theorem distinctNodes_rotl (f : QuadFace) (hd : f.distinctNodes) {k : ℕ}
    (hk : k < 4) : (f.rotl k).distinctNodes := by
  interval_cases k <;> (unfold distinctNodes at hd ⊢; dsimp only [rotl]; omega)

theorem distinctNodes_revKeepHead (f : QuadFace) (hd : f.distinctNodes) :
    f.revKeepHead.distinctNodes := by
  unfold distinctNodes at hd ⊢; dsimp only [revKeepHead]; omega

/-- Rotating the tuple by one step does not change the min-first rotation:
the rotation step of `canonical` sees through cyclic shifts. -/
theorem minRot_rotl1 (f : QuadFace) (hd : f.distinctNodes) :
    (f.rotl 1).rotl (f.rotl 1).minIndex = f.rotl f.minIndex := by
  obtain ⟨h01, h02, h03, h12, h13, h23⟩ := hd
  rw [minIndex_eq, minIndex_eq]
  dsimp only [rotl]
  split_ifs <;> first | rfl | omega

/-- The min-first rotation of the reversed tuple is the head-fixed reversal
of the min-first rotation. -/
theorem minRot_revKeepHead (f : QuadFace) (hd : f.distinctNodes) :
    f.revKeepHead.rotl f.revKeepHead.minIndex =
      (f.rotl f.minIndex).revKeepHead := by
  obtain ⟨h01, h02, h03, h12, h13, h23⟩ := hd
  rw [minIndex_eq, minIndex_eq]
  dsimp only [revKeepHead]
  split_ifs <;> first | rfl | omega

theorem canonical_rotl1 (f : QuadFace) (hd : f.distinctNodes) :
    (f.rotl 1).canonical = f.canonical := by
  unfold canonical
  rw [minRot_rotl1 f hd]

theorem canonical_revKeepHead (f : QuadFace) (hd : f.distinctNodes) :
    f.revKeepHead.canonical = f.canonical := by
  unfold canonical
  rw [minRot_revKeepHead f hd]
  have h13 : (f.rotl f.minIndex).n1 ≠ (f.rotl f.minIndex).n3 :=
    (distinctNodes_rotl f hd f.minIndex_lt_four).2.2.2.2.1
  simp only [tailLt, revKeepHead]
  split_ifs <;> first | rfl | (exfalso; omega)

/-- `canonical` is constant on the dihedral orbit of a distinct-node face. -/
theorem canonical_eq_of_mem_orbit {f g : QuadFace} (hd : f.distinctNodes)
    (hg : g ∈ f.dihedralOrbit) : g.canonical = f.canonical := by
  have d1 : (f.rotl 1).distinctNodes := distinctNodes_rotl f hd (by omega)
  have d2 : ((f.rotl 1).rotl 1).distinctNodes :=
    distinctNodes_rotl (f.rotl 1) d1 (by omega)
  have d3 : (((f.rotl 1).rotl 1).rotl 1).distinctNodes :=
    distinctNodes_rotl ((f.rotl 1).rotl 1) d2 (by omega)
  have c1 : (f.rotl 1).canonical = f.canonical := canonical_rotl1 f hd
  have c2 : (f.rotl 2).canonical = f.canonical := by
    have : (f.rotl 2) = (f.rotl 1).rotl 1 := rfl
    rw [this, canonical_rotl1 (f.rotl 1) d1, c1]
  have c3 : (f.rotl 3).canonical = f.canonical := by
    have : (f.rotl 3) = ((f.rotl 1).rotl 1).rotl 1 := rfl
    rw [this, canonical_rotl1 ((f.rotl 1).rotl 1) d2]
    have : ((f.rotl 1).rotl 1) = f.rotl 2 := rfl
    rw [this, c2]
  simp only [dihedralOrbit, List.mem_cons, List.not_mem_nil, or_false] at hg
  rcases hg with hg | hg | hg | hg | hg | hg | hg | hg <;> subst hg
  · rfl
  · exact c1
  · exact c2
  · exact c3
  · exact canonical_revKeepHead f hd
  · rw [canonical_revKeepHead (f.rotl 1) d1]; exact c1
  · rw [canonical_revKeepHead (f.rotl 2) (distinctNodes_rotl f hd (by omega))]
    exact c2
  · rw [canonical_revKeepHead (f.rotl 3) (distinctNodes_rotl f hd (by omega))]
    exact c3

theorem nodeFinset_of_mem_orbit {f g : QuadFace} (hg : g ∈ f.dihedralOrbit) :
    f.nodeFinset = g.nodeFinset := by
  simp only [dihedralOrbit, rotl, revKeepHead, List.mem_cons,
    List.not_mem_nil, or_false] at hg
  rcases hg with hg | hg | hg | hg | hg | hg | hg | hg <;> subst hg <;>
    (ext x; simp only [nodeFinset, Finset.mem_insert, Finset.mem_singleton]
     try tauto)

end QuadFace

/-- C6, counterexample: the claim "canonical(f) = canonical(g) iff f and g
have the same node set" is false.  The faces (1,2,3,4) and (1,3,2,4) have
pairwise-distinct nodes and the same node set, yet their canonical forms
differ (they are not related by any rotation or reflection of the
4-cycle). -/
theorem canonical_same_nodeset_counterexample :
    QuadFace.distinctNodes ⟨1, 2, 3, 4⟩ ∧ QuadFace.distinctNodes ⟨1, 3, 2, 4⟩ ∧
    QuadFace.nodeFinset ⟨1, 2, 3, 4⟩ = QuadFace.nodeFinset ⟨1, 3, 2, 4⟩ ∧
    QuadFace.canonical ⟨1, 2, 3, 4⟩ ≠ QuadFace.canonical ⟨1, 3, 2, 4⟩ := by
  refine ⟨by decide, by decide, ?_, by decide⟩
  decide

/-- C6, amended: for faces with pairwise-distinct nodes, the canonical
forms of `f` and `g` are equal iff `g` lies in the dihedral orbit of `f`
(i.e. `g` is a rotation of `f` or a rotation of its reversal) — in
particular `canonical` is invariant under every rotation and reflection of
the 4-tuple — and equal canonical forms still imply equal node sets. -/
theorem canonical_eq_iff_dihedral (f g : QuadFace) (hf : f.distinctNodes)
    (hg : g.distinctNodes) :
    (f.canonical = g.canonical ↔ g ∈ f.dihedralOrbit) ∧
    (f.canonical = g.canonical → f.nodeFinset = g.nodeFinset) := by
  have forward : f.canonical = g.canonical → g ∈ f.dihedralOrbit := by
    intro h
    have h1 : f.canonical ∈ f.dihedralOrbit := QuadFace.canonical_mem_orbit f
    have h3 : g ∈ g.canonical.dihedralOrbit :=
      QuadFace.mem_orbit_symm (QuadFace.canonical_mem_orbit g)
    rw [← h] at h3
    exact QuadFace.mem_orbit_trans h1 h3
  refine ⟨⟨forward, ?_⟩, ?_⟩
  · intro h
    exact (QuadFace.canonical_eq_of_mem_orbit hf h).symm
  · intro h
    exact QuadFace.nodeFinset_of_mem_orbit (forward h)

/-- Witness for the amended C6 theorem at the concrete faces (1,2,3,4) and
(2,3,4,1) (a rotation), with hypotheses discharged by `decide`. -/
theorem canonical_eq_iff_dihedral_witness :
    QuadFace.distinctNodes ⟨1, 2, 3, 4⟩ ∧ QuadFace.distinctNodes ⟨2, 3, 4, 1⟩ ∧
    ((QuadFace.canonical ⟨1, 2, 3, 4⟩ = QuadFace.canonical ⟨2, 3, 4, 1⟩ ↔
       (⟨2, 3, 4, 1⟩ : QuadFace) ∈ QuadFace.dihedralOrbit ⟨1, 2, 3, 4⟩) ∧
     (QuadFace.canonical ⟨1, 2, 3, 4⟩ = QuadFace.canonical ⟨2, 3, 4, 1⟩ →
       QuadFace.nodeFinset ⟨1, 2, 3, 4⟩ = QuadFace.nodeFinset ⟨2, 3, 4, 1⟩)) :=
  ⟨by decide, by decide,
   canonical_eq_iff_dihedral ⟨1, 2, 3, 4⟩ ⟨2, 3, 4, 1⟩ (by decide) (by decide)⟩


/-! ## Properties of the matcher loops -/

theorem List.getD_of_get? {α : Type _} {l : List α} {i : ℕ} {v : α} (d : α)
    (h : l.get? i = some v) : l.getD i d = v := by
  simp only [List.getD, ← List.get?_eq_getElem?, h, Option.getD_some]

/-- Any pair produced by the candidate loop either was the incoming
accumulator or was built from a candidate that passed both checks. -/
theorem fbmLoop_post (B : SurfaceMesh) (c : ContactCriteria) (i : ℕ)
    (cA nA : Vec3) (Post : ContactPair → Prop)
    (hnew : ∀ j cB nB, B.face_centroids.get? j = some cB →
      B.face_normals.get? j = some nB →
      c.is_in_range (signed_distance_to_plane cB cA nA) →
      c.is_angle_valid (angle_between_vectors nA nB) →
      Post ⟨i, j, signed_distance_to_plane cB cA nA,
        angle_between_vectors nA nB, project_point_to_plane cA cB nB⟩) :
    ∀ (cand : List ℕ) (best : Option ContactPair) (bestAbs : ℝ)
      (res : Option ContactPair),
      fbmLoop B c i cA nA cand best bestAbs = some res →
      (∀ q, best = some q → Post q) → ∀ p, res = some p → Post p := by
  intro cand
  induction cand with
  | nil =>
    intro best bestAbs res h hbest p hp
    simp only [fbmLoop, Option.some.injEq] at h
    subst h
    exact hbest p hp
  | cons j rest ih =>
    intro best bestAbs res h hbest p hp
    rcases hc : B.face_centroids.get? j with _ | cB <;>
      rcases hn : B.face_normals.get? j with _ | nB <;>
      simp only [fbmLoop, hc, hn, reduceCtorEq] at h
    split_ifs at h with h1 h2 h3
    · exact ih (some ⟨i, j, _, _, _⟩) _ res h
        (fun q hq => by
          cases hq
          exact hnew j cB nB hc hn h1 h2) p hp
    · exact ih best bestAbs res h hbest p hp
    · exact ih best bestAbs res h hbest p hp
    · exact ih best bestAbs res h hbest p hp

/-- `find_best_match` version of `fbmLoop_post`, starting from `none`. -/
theorem find_best_match_post (i : ℕ) (A B : SurfaceMesh) (c : ContactCriteria)
    (cand : List ℕ) (Post : ContactPair → Prop)
    (hnew : ∀ cA nA j cB nB, A.face_centroids.get? i = some cA →
      A.face_normals.get? i = some nA →
      B.face_centroids.get? j = some cB →
      B.face_normals.get? j = some nB →
      c.is_in_range (signed_distance_to_plane cB cA nA) →
      c.is_angle_valid (angle_between_vectors nA nB) →
      Post ⟨i, j, signed_distance_to_plane cB cA nA,
        angle_between_vectors nA nB, project_point_to_plane cA cB nB⟩) :
    ∀ res p, find_best_match i A B c cand = some res → res = some p → Post p := by
  intro res p h hp
  rcases hca : A.face_centroids.get? i with _ | cA <;>
    rcases hna : A.face_normals.get? i with _ | nA <;>
    simp only [find_best_match, hca, hna, reduceCtorEq] at h
  exact fbmLoop_post B c i cA nA Post
    (fun j cB nB hc hn h1 h2 => hnew cA nA j cB nB hca hna hc hn h1 h2)
    cand none f64MAX res h (fun q hq => by cases hq) p hp

/-- Pointwise description of a successful `frLoop` run. -/
theorem frLoop_get (A B : SurfaceMesh) (c : ContactCriteria)
    (enumOf : ℕ → List ℕ) :
    ∀ (idxs : List ℕ) (rs : List (Option ContactPair)),
      frLoop A B c enumOf idxs = some rs →
      rs.length = idxs.length ∧
      ∀ m r, rs.get? m = some r → ∃ im, idxs.get? m = some im ∧
        find_best_match im A B c (enumOf im) = some r := by
  intro idxs
  induction idxs with
  | nil =>
    intro rs h
    simp only [frLoop, Option.some.injEq] at h
    subst h
    exact ⟨rfl, by intro m r h; simp at h⟩
  | cons i rest ih =>
    intro rs h
    rcases hf : find_best_match i A B c (enumOf i) with _ | r0 <;>
      rcases hr : frLoop A B c enumOf rest with _ | rs0 <;>
      simp only [frLoop, hf, hr, Option.some.injEq, reduceCtorEq] at h
    subst h
    obtain ⟨hlen, hget⟩ := ih rs0 hr
    refine ⟨by simp [hlen], ?_⟩
    intro m r hm
    cases m with
    | zero =>
      simp only [List.get?] at hm
      cases hm
      exact ⟨i, rfl, hf⟩
    | succ m =>
      simp only [List.get?] at hm
      obtain ⟨im, h1, h2⟩ := hget m r hm
      exact ⟨im, h1, h2⟩

/-- Membership in the pair list produced by the collection loop. -/
theorem collectResults_pairs_mem :
    ∀ (rs : List (Option ContactPair)) (k : ℕ) (p : ContactPair),
      p ∈ (collectResults rs k).1 ↔ ∃ m, rs.get? m = some (some p) := by
  intro rs
  induction rs with
  | nil => intro k p; simp [collectResults]
  | cons r rest ih =>
    intro k p
    cases r with
    | none =>
      simp only [collectResults, ih rest.length, List.mem_cons]
      rw [ih (k + 1) p]
      constructor
      · rintro ⟨m, hm⟩; exact ⟨m + 1, by simpa using hm⟩
      · rintro ⟨m, hm⟩
        cases m with
        | zero => simp at hm
        | succ m => exact ⟨m, by simpa using hm⟩
    | some q =>
      simp only [collectResults, List.mem_cons]
      rw [ih (k + 1) p]
      constructor
      · rintro (h | ⟨m, hm⟩)
        · exact ⟨0, by simp [h]⟩
        · exact ⟨m + 1, by simpa using hm⟩
      · rintro ⟨m, hm⟩
        cases m with
        | zero => simp at hm; exact Or.inl hm.symm
        | succ m => exact Or.inr ⟨m, by simpa using hm⟩

/-- Membership in the `unpaired_a` list produced by the collection loop. -/
theorem collectResults_unpaired_mem :
    ∀ (rs : List (Option ContactPair)) (k x : ℕ),
      x ∈ (collectResults rs k).2 ↔ ∃ m, x = k + m ∧ rs.get? m = some none := by
  intro rs
  induction rs with
  | nil => intro k x; simp [collectResults]
  | cons r rest ih =>
    intro k x
    cases r with
    | some q =>
      simp only [collectResults]
      rw [ih (k + 1) x]
      constructor
      · rintro ⟨m, hm, hg⟩; exact ⟨m + 1, by omega, by simpa using hg⟩
      · rintro ⟨m, hm, hg⟩
        cases m with
        | zero => simp at hg
        | succ m => exact ⟨m, by omega, by simpa using hg⟩
    | none =>
      simp only [collectResults, List.mem_cons]
      rw [ih (k + 1) x]
      constructor
      · rintro (h | ⟨m, hm, hg⟩)
        · exact ⟨0, by omega, rfl⟩
        · exact ⟨m + 1, by omega, by simpa using hg⟩
      · rintro ⟨m, hm, hg⟩
        cases m with
        | zero => exact Or.inl (by omega)
        | succ m => exact Or.inr ⟨m, by omega, by simpa using hg⟩

/-- Anatomy of a successful `detect_contact_pairs` run, for reuse:
the result's fields in terms of the per-face match results. -/
theorem detect_contact_pairs_some (A B : SurfaceMesh) (c : ContactCriteria)
    (enumOf : ℕ → List ℕ) (r : ContactResults)
    (h : detect_contact_pairs A B c enumOf = some r) :
    ∃ rs, frLoop A B c enumOf (List.range A.faces.length) = some rs ∧
      r.pairs = (collectResults rs 0).1 ∧
      r.unpaired_a = (collectResults rs 0).2 ∧
      r.unpaired_b = (List.range B.faces.length).filter
        (fun j => decide (j ∉ (collectResults rs 0).1.map
          ContactPair.surface_b_face_id)) ∧
      r.criteria = c := by
  rcases hfr : frLoop A B c enumOf (List.range A.faces.length) with _ | rs <;>
    simp only [detect_contact_pairs, hfr, Option.some.injEq, reduceCtorEq] at h
  subst h
  exact ⟨rs, rfl, rfl, rfl, rfl, rfl⟩

/-- C3: every contact pair in a result of `detect_contact_pairs` satisfies
the distance-range and angle tests of the criteria stored in the result:
`−max_penetration ≤ d ≤ max_gap_distance` and `α ≤ max_normal_angle`. -/
theorem detect_pairs_within_criteria (A B : SurfaceMesh) (c : ContactCriteria)
    (enumOf : ℕ → List ℕ) (r : ContactResults)
    (h : detect_contact_pairs A B c enumOf = some r) :
    ∀ p ∈ r.pairs,
      (-r.criteria.max_penetration ≤ p.distance ∧
        p.distance ≤ r.criteria.max_gap_distance) ∧
      p.normal_angle ≤ r.criteria.max_normal_angle := by
  obtain ⟨rs, hfr, hpairs, -, -, hcrit⟩ :=
    detect_contact_pairs_some A B c enumOf r h
  intro p hp
  rw [hpairs] at hp
  obtain ⟨m, hm⟩ := (collectResults_pairs_mem rs 0 p).mp hp
  obtain ⟨-, hget⟩ := frLoop_get A B c enumOf _ rs hfr
  obtain ⟨im, -, hfb⟩ := hget m (some p) hm
  rw [hcrit]
  exact find_best_match_post im A B c (enumOf im)
    (fun q => (-c.max_penetration ≤ q.distance ∧
        q.distance ≤ c.max_gap_distance) ∧
      q.normal_angle ≤ c.max_normal_angle)
    (fun cA nA j cB nB _ _ _ _ h1 h2 => ⟨h1, h2⟩)
    (some p) p hfb rfl

theorem lt_length_of_get? {α : Type _} {l : List α} {i : ℕ} {v : α}
    (h : l.get? i = some v) : i < l.length := by
  by_contra hlt
  rw [List.get?_eq_none.mpr (Nat.le_of_not_lt hlt)] at h
  cases h

/-- Identity facts about an emitted pair: its A-id is the searched face
index and its B-id indexes into B's centroid array. -/
theorem find_best_match_ids (i : ℕ) (A B : SurfaceMesh) (c : ContactCriteria)
    (cand : List ℕ) (p : ContactPair)
    (h : find_best_match i A B c cand = some (some p)) :
    p.surface_a_face_id = i ∧ p.surface_b_face_id < B.face_centroids.length := by
  refine find_best_match_post i A B c cand
    (fun q => q.surface_a_face_id = i ∧
      q.surface_b_face_id < B.face_centroids.length) ?_ (some p) p h rfl
  intro cA nA j cB nB _ _ hc _ _ _
  exact ⟨rfl, lt_length_of_get? hc⟩

/-- C4: the A-face indices of the pair list and `unpaired_a` are disjoint
and together are exactly `{0, …, |A|−1}`; the B-face indices of the pair
list and `unpaired_b` are disjoint and together are exactly
`{0, …, |B|−1}`.  The hypothesis is the §3 patch invariant that the
per-face arrays of `B` all have length `|B.faces|`. -/
theorem detect_pairs_partition (A B : SurfaceMesh) (c : ContactCriteria)
    (enumOf : ℕ → List ℕ) (r : ContactResults)
    (hBc : B.face_centroids.length = B.faces.length)
    (h : detect_contact_pairs A B c enumOf = some r) :
    ((∀ x, (x ∈ r.pairs.map ContactPair.surface_a_face_id ∨ x ∈ r.unpaired_a)
        ↔ x < A.faces.length) ∧
      (∀ x, x ∈ r.pairs.map ContactPair.surface_a_face_id →
        x ∉ r.unpaired_a)) ∧
    ((∀ x, (x ∈ r.pairs.map ContactPair.surface_b_face_id ∨ x ∈ r.unpaired_b)
        ↔ x < B.faces.length) ∧
      (∀ x, x ∈ r.pairs.map ContactPair.surface_b_face_id →
        x ∉ r.unpaired_b)) := by
  obtain ⟨rs, hfr, hpairs, hua, hub, -⟩ :=
    detect_contact_pairs_some A B c enumOf r h
  obtain ⟨hlen, hget⟩ := frLoop_get A B c enumOf _ rs hfr
  rw [List.length_range] at hlen
  -- facts about a pair in the result list
  have hpair_fact : ∀ p, p ∈ r.pairs →
      rs.get? p.surface_a_face_id = some (some p) ∧
      p.surface_a_face_id < A.faces.length ∧
      p.surface_b_face_id < B.face_centroids.length := by
    intro p hp
    rw [hpairs] at hp
    obtain ⟨m, hm⟩ := (collectResults_pairs_mem rs 0 p).mp hp
    have hmlt : m < A.faces.length := hlen ▸ lt_length_of_get? hm
    obtain ⟨im, him, hfb⟩ := hget m (some p) hm
    rw [List.get?_range hmlt] at him
    cases him
    obtain ⟨haid, hbid⟩ := find_best_match_ids m A B c (enumOf m) p hfb
    rw [haid]
    exact ⟨hm, hmlt, hbid⟩
  have hun_fact : ∀ x, x ∈ r.unpaired_a ↔
      (x < A.faces.length ∧ rs.get? x = some none) := by
    intro x
    rw [hua, collectResults_unpaired_mem rs 0 x]
    constructor
    · rintro ⟨m, hm, hg⟩
      have : x = m := by omega
      subst this
      exact ⟨hlen ▸ lt_length_of_get? hg, hg⟩
    · rintro ⟨hx, hg⟩
      exact ⟨x, by omega, hg⟩
  constructor
  · constructor
    · intro x
      constructor
      · rintro (hx | hx)
        · obtain ⟨p, hp, hpx⟩ := List.mem_map.mp hx
          obtain ⟨-, hlt, -⟩ := hpair_fact p hp
          omega
        · exact ((hun_fact x).mp hx).1
      · intro hx
        rcases hrx : rs.get? x with _ | rx
        · have := List.get?_eq_none.mp hrx
          omega
        · cases rx with
          | none => exact Or.inr ((hun_fact x).mpr ⟨hx, hrx⟩)
          | some p =>
            left
            obtain ⟨im, him, hfb⟩ := hget x (some p) hrx
            rw [List.get?_range hx] at him
            cases him
            obtain ⟨haid, -⟩ := find_best_match_ids x A B c (enumOf x) p hfb
            refine List.mem_map.mpr ⟨p, ?_, haid⟩
            rw [hpairs]
            exact (collectResults_pairs_mem rs 0 p).mpr ⟨x, hrx⟩
    · intro x hx hxu
      obtain ⟨p, hp, hpx⟩ := List.mem_map.mp hx
      obtain ⟨hg, -, -⟩ := hpair_fact p hp
      rw [hpx] at hg
      rw [hun_fact x] at hxu
      rw [hxu.2] at hg
      cases hg
  · have hub_mem : ∀ x, x ∈ r.unpaired_b ↔
        (x < B.faces.length ∧
          x ∉ r.pairs.map ContactPair.surface_b_face_id) := by
      intro x
      rw [hub, hpairs, List.mem_filter]
      simp [List.mem_range]
    constructor
    · intro x
      constructor
      · rintro (hx | hx)
        · obtain ⟨p, hp, hpx⟩ := List.mem_map.mp hx
          obtain ⟨-, -, hbid⟩ := hpair_fact p hp
          omega
        · exact ((hub_mem x).mp hx).1
      · intro hx
        by_cases hmem : x ∈ r.pairs.map ContactPair.surface_b_face_id
        · exact Or.inl hmem
        · exact Or.inr ((hub_mem x).mpr ⟨hx, hmem⟩)
    · intro x hx hxu
      exact ((hub_mem x).mp hxu).2 hx

/-- Totality of the candidate loop when every candidate index is in
range. -/
theorem fbmLoop_total (B : SurfaceMesh) (c : ContactCriteria) (i : ℕ)
    (cA nA : Vec3) :
    ∀ (cand : List ℕ),
      (∀ j ∈ cand, j < B.face_centroids.length ∧ j < B.face_normals.length) →
      ∀ (best : Option ContactPair) (bestAbs : ℝ),
        ∃ res, fbmLoop B c i cA nA cand best bestAbs = some res := by
  intro cand
  induction cand with
  | nil => intro _ best bestAbs; exact ⟨best, rfl⟩
  | cons j rest ih =>
    intro hcand best bestAbs
    obtain ⟨hc, hn⟩ := hcand j (List.mem_cons_self j rest)
    have hrest : ∀ j ∈ rest, j < B.face_centroids.length ∧
        j < B.face_normals.length :=
      fun j hj => hcand j (List.mem_cons_of_mem _ hj)
    rw [fbmLoop, List.get?_eq_get hc, List.get?_eq_get hn]
    dsimp only
    split_ifs with h1 h2 h3
    · exact ih hrest _ _
    · exact ih hrest _ _
    · exact ih hrest _ _
    · exact ih hrest _ _

/-- C7: under the §3 patch invariants (per-face arrays of the same length
as the face list, and the spatial index only returning in-range B
indices), `detect_contact_pairs` always produces a result — there is no
error path and no panic. -/
theorem detect_contact_pairs_total (A B : SurfaceMesh) (c : ContactCriteria)
    (enumOf : ℕ → List ℕ)
    (hAc : A.face_centroids.length = A.faces.length)
    (hAn : A.face_normals.length = A.faces.length)
    (hBc : B.face_centroids.length = B.faces.length)
    (hBn : B.face_normals.length = B.faces.length)
    (hEnum : ∀ i j, j ∈ enumOf i → j < B.faces.length) :
    ∃ r, detect_contact_pairs A B c enumOf = some r := by
  have hfb : ∀ i, i < A.faces.length →
      ∃ res, find_best_match i A B c (enumOf i) = some res := by
    intro i hi
    have hci : i < A.face_centroids.length := by omega
    have hni : i < A.face_normals.length := by omega
    rw [find_best_match, List.get?_eq_get hci, List.get?_eq_get hni]
    exact fbmLoop_total B c i _ _ (enumOf i)
      (fun j hj => ⟨by rw [hBc]; exact hEnum i j hj,
                    by rw [hBn]; exact hEnum i j hj⟩) none f64MAX
  have hfr : ∀ (idxs : List ℕ), (∀ i ∈ idxs, i < A.faces.length) →
      ∃ rs, frLoop A B c enumOf idxs = some rs := by
    intro idxs
    induction idxs with
    | nil => intro _; exact ⟨[], rfl⟩
    | cons i rest ih =>
      intro hidx
      obtain ⟨r0, hr0⟩ := hfb i (hidx i (List.mem_cons_self i rest))
      obtain ⟨rs0, hrs0⟩ := ih (fun j hj => hidx j (List.mem_cons_of_mem _ hj))
      exact ⟨r0 :: rs0, by rw [frLoop, hr0, hrs0]⟩
  obtain ⟨rs, hrs⟩ := hfr (List.range A.faces.length)
    (fun i hi => List.mem_range.mp hi)
  rw [detect_contact_pairs, hrs]
  exact ⟨_, rfl⟩


/-- If no candidate passes, the loop returns its accumulator unchanged. -/
theorem fbmLoop_nopass (B : SurfaceMesh) (c : ContactCriteria) (i : ℕ)
    (cA nA : Vec3) :
    ∀ (cand : List ℕ) (best : Option ContactPair) (bestAbs : ℝ)
      (res : Option ContactPair),
      (∀ j ∈ cand, ¬ fbPass B c cA nA j) →
      fbmLoop B c i cA nA cand best bestAbs = some res → res = best := by
  intro cand
  induction cand with
  | nil =>
    intro best bestAbs res _ h
    simp only [fbmLoop, Option.some.injEq] at h
    exact h.symm
  | cons j rest ih =>
    intro best bestAbs res hno h
    rcases hc : B.face_centroids.get? j with _ | cB <;>
      rcases hn : B.face_normals.get? j with _ | nB <;>
      simp only [fbmLoop, hc, hn, reduceCtorEq] at h
    have hdj : fbDist B cA nA j = signed_distance_to_plane cB cA nA := by
      rw [fbDist, List.getD_of_get? default hc]
    have haj : fbAngle B nA j = angle_between_vectors nA nB := by
      rw [fbAngle, List.getD_of_get? default hn]
    split_ifs at h with h1 h2 h3
    · exact absurd ⟨by rw [hdj]; exact h1, by rw [haj]; exact h2⟩
        (hno j (List.mem_cons_self j rest))
    · exact ih best bestAbs res
        (fun j' hj' => hno j' (List.mem_cons_of_mem _ hj')) h
    · exact ih best bestAbs res
        (fun j' hj' => hno j' (List.mem_cons_of_mem _ hj')) h
    · exact ih best bestAbs res
        (fun j' hj' => hno j' (List.mem_cons_of_mem _ hj')) h

/-- Full characterization of a successful match: the emitted pair has the
minimum `|distance|` among passing candidates, and strictly beats every
passing candidate enumerated before it (first-seen tie-break). -/
theorem fbmLoop_minimal (B : SurfaceMesh) (c : ContactCriteria) (i : ℕ)
    (cA nA : Vec3) :
    ∀ (cand : List ℕ) (best : Option ContactPair) (bestAbs : ℝ)
      (p : ContactPair),
      fbmLoop B c i cA nA cand best bestAbs = some (some p) →
      (∀ q, best = some q → |q.distance| = bestAbs) →
      |p.distance| ≤ bestAbs ∧
      (∀ j ∈ cand, fbPass B c cA nA j →
        |p.distance| ≤ |fbDist B cA nA j|) ∧
      (best = some p ∨
        ∃ l1 l2, cand = l1 ++ p.surface_b_face_id :: l2 ∧
          p.surface_a_face_id = i ∧
          p.distance = fbDist B cA nA p.surface_b_face_id ∧
          p.normal_angle = fbAngle B nA p.surface_b_face_id ∧
          fbPass B c cA nA p.surface_b_face_id ∧
          |p.distance| < bestAbs ∧
          ∀ j ∈ l1, fbPass B c cA nA j →
            |p.distance| < |fbDist B cA nA j|) := by
  intro cand
  induction cand with
  | nil =>
    intro best bestAbs p h hinv
    simp only [fbmLoop, Option.some.injEq] at h
    subst h
    refine ⟨le_of_eq (hinv p rfl), by simp, Or.inl rfl⟩
  | cons j rest ih =>
    intro best bestAbs p h hinv
    rcases hc : B.face_centroids.get? j with _ | cB <;>
      rcases hn : B.face_normals.get? j with _ | nB <;>
      simp only [fbmLoop, hc, hn, reduceCtorEq] at h
    have hdj : fbDist B cA nA j = signed_distance_to_plane cB cA nA := by
      rw [fbDist, List.getD_of_get? default hc]
    have haj : fbAngle B nA j = angle_between_vectors nA nB := by
      rw [fbAngle, List.getD_of_get? default hn]
    split_ifs at h with h1 h2 h3
    · -- candidate j strictly improves: becomes the new accumulator
      obtain ⟨ha, hb, hcor⟩ := ih _ _ p h (fun q hq => by cases hq; rfl)
      have hja : |p.distance| ≤ |signed_distance_to_plane cB cA nA| := ha
      refine ⟨le_of_lt (lt_of_le_of_lt ha h3), ?_, ?_⟩
      · intro j' hj' hp'
        rcases List.mem_cons.mp hj' with hj' | hj'
        · subst hj'; rw [hdj]; exact hja
        · exact hb j' hj' hp'
      · rcases hcor with hcor | ⟨l1, l2, hsplit, hfields⟩
        · -- p is exactly the pair built from j
          right
          have hpq := Option.some.inj hcor
          subst hpq
          have hpass : fbPass B c cA nA j := by
            show c.is_in_range (fbDist B cA nA j) ∧
              c.is_angle_valid (fbAngle B nA j)
            rw [hdj, haj]
            exact ⟨h1, h2⟩
          exact ⟨[], rest, rfl, rfl, hdj.symm, haj.symm, hpass, h3, by simp⟩
        · right
          refine ⟨j :: l1, l2, by rw [hsplit]; rfl, hfields.1, hfields.2.1,
            hfields.2.2.1, hfields.2.2.2.1, ?_, ?_⟩
          · exact lt_trans hfields.2.2.2.2.1 h3
          · intro j' hj' hp'
            rcases List.mem_cons.mp hj' with hj' | hj'
            · subst hj'
              rw [hdj]
              exact hfields.2.2.2.2.1
            · exact hfields.2.2.2.2.2 j' hj' hp'
    · -- candidate j passes but does not improve
      obtain ⟨ha, hb, hcor⟩ := ih best bestAbs p h hinv
      have hge : bestAbs ≤ |signed_distance_to_plane cB cA nA| :=
        le_of_not_lt h3
      refine ⟨ha, ?_, ?_⟩
      · intro j' hj' hp'
        rcases List.mem_cons.mp hj' with hj' | hj'
        · subst hj'; rw [hdj]; exact le_trans ha hge
        · exact hb j' hj' hp'
      · rcases hcor with hcor | ⟨l1, l2, hsplit, hfields⟩
        · exact Or.inl hcor
        · right
          refine ⟨j :: l1, l2, by rw [hsplit]; rfl, hfields.1, hfields.2.1,
            hfields.2.2.1, hfields.2.2.2.1, hfields.2.2.2.2.1, ?_⟩
          intro j' hj' hp'
          rcases List.mem_cons.mp hj' with hj' | hj'
          · subst hj'
            rw [hdj]
            exact lt_of_lt_of_le hfields.2.2.2.2.1 hge
          · exact hfields.2.2.2.2.2 j' hj' hp'
    · -- candidate j fails the angle test
      obtain ⟨ha, hb, hcor⟩ := ih best bestAbs p h hinv
      refine ⟨ha, ?_, ?_⟩
      · intro j' hj' hp'
        rcases List.mem_cons.mp hj' with hj' | hj'
        · subst hj'
          exact absurd (by rw [← haj]; exact hp'.2) h2
        · exact hb j' hj' hp'
      · rcases hcor with hcor | ⟨l1, l2, hsplit, hfields⟩
        · exact Or.inl hcor
        · right
          refine ⟨j :: l1, l2, by rw [hsplit]; rfl, hfields.1, hfields.2.1,
            hfields.2.2.1, hfields.2.2.2.1, hfields.2.2.2.2.1, ?_⟩
          intro j' hj' hp'
          rcases List.mem_cons.mp hj' with hj' | hj'
          · subst hj'
            exact absurd (by rw [← haj]; exact hp'.2) h2
          · exact hfields.2.2.2.2.2 j' hj' hp'
    · -- candidate j fails the distance-range test
      obtain ⟨ha, hb, hcor⟩ := ih best bestAbs p h hinv
      refine ⟨ha, ?_, ?_⟩
      · intro j' hj' hp'
        rcases List.mem_cons.mp hj' with hj' | hj'
        · subst hj'
          exact absurd (by rw [← hdj]; exact hp'.1) h1
        · exact hb j' hj' hp'
      · rcases hcor with hcor | ⟨l1, l2, hsplit, hfields⟩
        · exact Or.inl hcor
        · right
          refine ⟨j :: l1, l2, by rw [hsplit]; rfl, hfields.1, hfields.2.1,
            hfields.2.2.1, hfields.2.2.2.1, hfields.2.2.2.2.1, ?_⟩
          intro j' hj' hp'
          rcases List.mem_cons.mp hj' with hj' | hj'
          · subst hj'
            exact absurd (by rw [← hdj]; exact hp'.1) h1
          · exact hfields.2.2.2.2.2 j' hj' hp'

/-- Every pair in a detection result is the output of `find_best_match`
for its own A-face index. -/
theorem detect_pairs_provenance (A B : SurfaceMesh) (c : ContactCriteria)
    (enumOf : ℕ → List ℕ) (r : ContactResults)
    (h : detect_contact_pairs A B c enumOf = some r) :
    ∀ p ∈ r.pairs, p.surface_a_face_id < A.faces.length ∧
      find_best_match p.surface_a_face_id A B c
        (enumOf p.surface_a_face_id) = some (some p) := by
  obtain ⟨rs, hfr, hpairs, -, -, -⟩ := detect_contact_pairs_some A B c enumOf r h
  obtain ⟨hlen, hget⟩ := frLoop_get A B c enumOf _ rs hfr
  rw [List.length_range] at hlen
  intro p hp
  rw [hpairs] at hp
  obtain ⟨m, hm⟩ := (collectResults_pairs_mem rs 0 p).mp hp
  have hmlt : m < A.faces.length := hlen ▸ lt_length_of_get? hm
  obtain ⟨im, him, hfb⟩ := hget m _ hm
  rw [List.get?_range hmlt] at him
  cases him
  obtain ⟨haid, -⟩ := find_best_match_ids m A B c (enumOf m) p hfb
  rw [haid]
  exact ⟨hmlt, hfb⟩

/-- An A-face whose match search returns nothing lands in `unpaired_a`. -/
theorem detect_unpaired_a_of (A B : SurfaceMesh) (c : ContactCriteria)
    (enumOf : ℕ → List ℕ) (r : ContactResults)
    (h : detect_contact_pairs A B c enumOf = some r) (x : ℕ)
    (hx : x < A.faces.length)
    (hfb : find_best_match x A B c (enumOf x) = some none) :
    x ∈ r.unpaired_a := by
  obtain ⟨rs, hfr, -, hua, -, -⟩ := detect_contact_pairs_some A B c enumOf r h
  obtain ⟨hlen, hget⟩ := frLoop_get A B c enumOf _ rs hfr
  rw [List.length_range] at hlen
  rcases hrx : rs.get? x with _ | rx
  · have := List.get?_eq_none.mp hrx
    omega
  · obtain ⟨im, him, hfb'⟩ := hget x rx hrx
    rw [List.get?_range hx] at him
    cases him
    have hrxn : rx = none := by
      rw [hfb] at hfb'
      exact (Option.some.inj hfb').symm
    subst hrxn
    rw [hua]
    exact (collectResults_unpaired_mem rs 0 x).mpr ⟨x, by omega, hrx⟩

/-- C5: when `detect_contact_pairs` emits a pair for A-face `i`, the
chosen B-face passes both tests, carries the computed signed distance and
angle, has the minimum `|d|` among all in-radius candidates passing both
tests, and strictly beats every candidate the spatial query enumerated
before it (first-seen tie-break); and if no candidate passes both tests,
`i` lands in `unpaired_a`.  `enumOf i` is characterized as exactly the
B-faces whose centroid lies within `max_gap_distance ·
search_radius_multiplier` of A's centroid, mirroring the k-d tree
query. -/
theorem detect_pairs_best_match (A B : SurfaceMesh) (c : ContactCriteria)
    (enumOf : ℕ → List ℕ) (r : ContactResults) (i : ℕ)
    (h : detect_contact_pairs A B c enumOf = some r)
    (hEnum : ∀ j, j ∈ enumOf i ↔ (j < B.faces.length ∧
      (Vec3.sub (B.face_centroids.getD j default)
        (A.face_centroids.getD i default)).norm ≤ c.search_radius)) :
    (∀ p ∈ r.pairs, p.surface_a_face_id = i →
      p.surface_b_face_id ∈ enumOf i ∧
      cand_passes A B c i p.surface_b_face_id ∧
      p.distance = cand_distance A B i p.surface_b_face_id ∧
      p.normal_angle = cand_angle A B i p.surface_b_face_id ∧
      (∀ j, j < B.faces.length →
        (Vec3.sub (B.face_centroids.getD j default)
          (A.face_centroids.getD i default)).norm ≤ c.search_radius →
        cand_passes A B c i j → |p.distance| ≤ |cand_distance A B i j|) ∧
      (∃ l1 l2, enumOf i = l1 ++ p.surface_b_face_id :: l2 ∧
        ∀ j ∈ l1, cand_passes A B c i j →
          |p.distance| < |cand_distance A B i j|)) ∧
    ((i < A.faces.length ∧ ∀ j, j < B.faces.length →
        (Vec3.sub (B.face_centroids.getD j default)
          (A.face_centroids.getD i default)).norm ≤ c.search_radius →
        ¬ cand_passes A B c i j) →
      i ∈ r.unpaired_a) := by
  constructor
  · intro p hp hpa
    obtain ⟨hlt, hfb⟩ := detect_pairs_provenance A B c enumOf r h p hp
    rw [hpa] at hfb hlt
    rcases hca : A.face_centroids.get? i with _ | cA <;>
      rcases hna : A.face_normals.get? i with _ | nA <;>
      simp only [find_best_match, hca, hna, reduceCtorEq] at hfb
    have hcd : ∀ j, cand_distance A B i j = fbDist B cA nA j := by
      intro j
      rw [cand_distance, fbDist, List.getD_of_get? default hca,
        List.getD_of_get? default hna]
    have hcang : ∀ j, cand_angle A B i j = fbAngle B nA j := by
      intro j
      rw [cand_angle, fbAngle, List.getD_of_get? default hna]
    have hcp : ∀ j, cand_passes A B c i j ↔ fbPass B c cA nA j := by
      intro j
      rw [cand_passes, fbPass, hcd j, hcang j]
    obtain ⟨-, hball, hcor⟩ := fbmLoop_minimal B c i cA nA (enumOf i) none
      f64MAX p hfb (fun q hq => by cases hq)
    rcases hcor with hcor | ⟨l1, l2, hsplit, -, hdist, hangl, hpass, -, hties⟩
    · cases hcor
    refine ⟨?_, (hcp _).mpr hpass, ?_, ?_, ?_, ?_⟩
    · rw [hsplit]
      simp
    · rw [hcd]
      exact hdist
    · rw [hcang]
      exact hangl
    · intro j hj hwithin hpassj
      rw [hcd j]
      exact hball j ((hEnum j).mpr ⟨hj, hwithin⟩) ((hcp j).mp hpassj)
    · exact ⟨l1, l2, hsplit, fun j hj hpj => by
        rw [hcd j]
        exact hties j hj ((hcp j).mp hpj)⟩
  · rintro ⟨hi, hnopass⟩
    obtain ⟨rs, hfr, -, hua, -, -⟩ := detect_contact_pairs_some A B c enumOf r h
    obtain ⟨hlen, hget⟩ := frLoop_get A B c enumOf _ rs hfr
    rw [List.length_range] at hlen
    rcases hrx : rs.get? i with _ | rx
    · have := List.get?_eq_none.mp hrx
      omega
    obtain ⟨im, him, hfb⟩ := hget i rx hrx
    rw [List.get?_range hi] at him
    cases him
    rcases hca : A.face_centroids.get? i with _ | cA <;>
      rcases hna : A.face_normals.get? i with _ | nA <;>
      simp only [find_best_match, hca, hna, reduceCtorEq] at hfb
    have hcd : ∀ j, cand_distance A B i j = fbDist B cA nA j := by
      intro j
      rw [cand_distance, fbDist, List.getD_of_get? default hca,
        List.getD_of_get? default hna]
    have hcang : ∀ j, cand_angle A B i j = fbAngle B nA j := by
      intro j
      rw [cand_angle, fbAngle, List.getD_of_get? default hna]
    have hcp : ∀ j, cand_passes A B c i j ↔ fbPass B c cA nA j := by
      intro j
      rw [cand_passes, fbPass, hcd j, hcang j]
    have hrxn : rx = none := by
      refine fbmLoop_nopass B c i cA nA (enumOf i) none f64MAX rx ?_ hfb
      intro j hj hpassj
      obtain ⟨hjlt, hwithin⟩ := (hEnum j).mp hj
      exact hnopass j hjlt hwithin ((hcp j).mpr hpassj)
    subst hrxn
    rw [hua]
    exact (collectResults_unpaired_mem rs 0 i).mpr ⟨i, by omega, hrx⟩

/-! ## Folded min/max helpers -/

theorem foldl_min_le_start : ∀ (l : List ℝ) (a : ℝ), List.foldl min a l ≤ a := by
  intro l
  induction l with
  | nil => intro a; exact le_refl a
  | cons x l ih =>
    intro a
    exact le_trans (ih (min a x)) (min_le_left a x)

theorem foldl_min_le_mem :
    ∀ (l : List ℝ) (a x : ℝ), x ∈ l → List.foldl min a l ≤ x := by
  intro l
  induction l with
  | nil => intro a x hx; cases hx
  | cons y l ih =>
    intro a x hx
    rcases List.mem_cons.mp hx with hx | hx
    · subst hx
      exact le_trans (foldl_min_le_start l (min a x)) (min_le_right a x)
    · exact ih (min a y) x hx

theorem foldl_min_mem_or :
    ∀ (l : List ℝ) (a : ℝ), List.foldl min a l = a ∨ List.foldl min a l ∈ l := by
  intro l
  induction l with
  | nil => intro a; exact Or.inl rfl
  | cons y l ih =>
    intro a
    rcases ih (min a y) with h | h
    · rcases min_choice a y with hc | hc
      · exact Or.inl (by rw [List.foldl_cons, h, hc])
      · exact Or.inr (by rw [List.foldl_cons, h, hc]; exact List.mem_cons_self y l)
    · exact Or.inr (List.mem_cons_of_mem y h)

theorem foldl_max_ge_start : ∀ (l : List ℝ) (a : ℝ), a ≤ List.foldl max a l := by
  intro l
  induction l with
  | nil => intro a; exact le_refl a
  | cons x l ih =>
    intro a
    exact le_trans (le_max_left a x) (ih (max a x))

theorem foldl_max_ge_mem :
    ∀ (l : List ℝ) (a x : ℝ), x ∈ l → x ≤ List.foldl max a l := by
  intro l
  induction l with
  | nil => intro a x hx; cases hx
  | cons y l ih =>
    intro a x hx
    rcases List.mem_cons.mp hx with hx | hx
    · subst hx
      exact le_trans (le_max_right a x) (foldl_max_ge_start l (max a x))
    · exact ih (max a y) x hx

theorem foldl_max_mem_or :
    ∀ (l : List ℝ) (a : ℝ), List.foldl max a l = a ∨ List.foldl max a l ∈ l := by
  intro l
  induction l with
  | nil => intro a; exact Or.inl rfl
  | cons y l ih =>
    intro a
    rcases ih (max a y) with h | h
    · rcases max_choice a y with hc | hc
      · exact Or.inl (by rw [List.foldl_cons, h, hc])
      · exact Or.inr (by rw [List.foldl_cons, h, hc]; exact List.mem_cons_self y l)
    · exact Or.inr (List.mem_cons_of_mem y h)

/-- Closed form of the metrics accumulation loop when every pair's A-face
id is in range of the area array (otherwise the loop panics). -/
theorem metricsFold_eval (areas : List ℝ) :
    ∀ (ps : List ContactPair) (pa ws ans mn mx : ℝ),
      (∀ p ∈ ps, p.surface_a_face_id < areas.length) →
      metricsFold areas ps (pa, ws, ans, mn, mx) =
        some (pa + (ps.map (fun p => areas.getD p.surface_a_face_id 0)).sum,
         ws + (ps.map (fun p =>
           p.distance * areas.getD p.surface_a_face_id 0)).sum,
         ans + (ps.map ContactPair.normal_angle).sum,
         List.foldl min mn (ps.map ContactPair.distance),
         List.foldl max mx (ps.map ContactPair.distance)) := by
  intro ps
  induction ps with
  | nil =>
    intro pa ws ans mn mx _
    simp [metricsFold]
  | cons p ps ih =>
    intro pa ws ans mn mx hid
    have hplt : p.surface_a_face_id < areas.length :=
      hid p (List.mem_cons_self p ps)
    have ha : areas.get? p.surface_a_face_id =
        some (areas.get ⟨p.surface_a_face_id, hplt⟩) := List.get?_eq_get hplt
    have haD : areas.getD p.surface_a_face_id 0 =
        areas.get ⟨p.surface_a_face_id, hplt⟩ := List.getD_of_get? 0 ha
    rw [metricsFold, ha]
    dsimp only
    rw [ih _ _ _ _ _ (fun q hq => hid q (List.mem_cons_of_mem p hq))]
    simp only [List.map_cons, List.sum_cons, List.foldl_cons, haD]
    exact congrArg some (Prod.ext (by ring) (Prod.ext (by ring)
      (Prod.ext (by ring) (Prod.ext rfl rfl))))

/-- The variance loop cannot panic when every pair's A-face id is in
range of the area array. -/
theorem varianceFold_some (areas : List ℝ) (avg : ℝ) :
    ∀ (ps : List ContactPair) (acc : ℝ),
      (∀ p ∈ ps, p.surface_a_face_id < areas.length) →
      ∃ v, varianceFold areas avg ps acc = some v := by
  intro ps
  induction ps with
  | nil =>
    intro acc _
    exact ⟨acc, rfl⟩
  | cons p ps ih =>
    intro acc hid
    have hplt : p.surface_a_face_id < areas.length :=
      hid p (List.mem_cons_self p ps)
    have ha : areas.get? p.surface_a_face_id =
        some (areas.get ⟨p.surface_a_face_id, hplt⟩) := List.get?_eq_get hplt
    rw [varianceFold, ha]
    dsimp only
    exact ih _ (fun q hq => hid q (List.mem_cons_of_mem p hq))

/-- Unfolding of `SurfaceMetrics.compute` when neither loop panics. -/
theorem compute_eq_of (r : ContactResults) (s : SurfaceMesh)
    (st : ℝ × ℝ × ℝ × ℝ × ℝ) (v : ℝ)
    (hst : metricsFold s.face_areas r.pairs (0, 0, 0, f64MAX, f64MIN) = some st)
    (hv : varianceFold s.face_areas
        (if 0 < r.pairs.length then st.2.1 / st.1 else 0) r.pairs 0 = some v) :
    SurfaceMetrics.compute r s = some
      { total_area := s.face_areas.sum
        paired_area := st.1
        unpaired_area := s.face_areas.sum - st.1
        avg_distance := if 0 < r.pairs.length then st.2.1 / st.1 else 0
        std_dev_distance := if 0 < st.1 then Real.sqrt (v / st.1) else 0
        min_distance := if 0 < r.pairs.length then st.2.2.2.1 else 0
        max_distance := if 0 < r.pairs.length then st.2.2.2.2 else 0
        avg_normal_angle :=
          if 0 < r.pairs.length then st.2.2.1 / (r.pairs.length : ℝ) else 0
        num_pairs := r.pairs.length
        num_unpaired := r.unpaired_a.length } := by
  simp only [SurfaceMetrics.compute]
  rw [hst]
  dsimp only
  rw [hv]

/-- Every A-face id of `resC10` indexes `surfC10.face_areas`. -/
theorem resC10_ids_lt :
    ∀ p ∈ resC10.pairs, p.surface_a_face_id < surfC10.face_areas.length := by
  intro p hp
  rw [show resC10.pairs = [⟨0, 0, 0, 0, ⟨0, 0, 0⟩⟩,
    ⟨1, 1, 1, 0, ⟨0, 0, 0⟩⟩] from rfl] at hp
  rcases List.mem_cons.mp hp with hp | hp
  · subst hp
    show (0 : ℕ) < 2
    norm_num
  · rcases List.mem_cons.mp hp with hp | hp
    · subst hp
      show (1 : ℕ) < 2
      norm_num
    · cases hp

/-- Every pair distance of `resC10` is within double range. -/
theorem resC10_dist_bounded : ∀ p ∈ resC10.pairs, |p.distance| ≤ f64MAX := by
  intro p hp
  rw [show resC10.pairs = [⟨0, 0, 0, 0, ⟨0, 0, 0⟩⟩,
    ⟨1, 1, 1, 0, ⟨0, 0, 0⟩⟩] from rfl] at hp
  rcases List.mem_cons.mp hp with hp | hp
  · subst hp
    show |(0 : ℝ)| ≤ f64MAX
    rw [abs_zero, f64MAX]
    norm_num
  · rcases List.mem_cons.mp hp with hp | hp
    · subst hp
      show |(1 : ℝ)| ≤ f64MAX
      rw [abs_one, f64MAX]
      norm_num
    · cases hp

/-- C9: under the §3 validity invariant that every pair's A-face id
indexes `face_areas` (otherwise the Rust program panics on
`surface.face_areas[pair.surface_a_face_id]`), `compute_surface_metrics`
returns a record with `unpaired_area = total_area − paired_area`;
`avg_distance` the A-face-area-weighted mean of pair distances and `0`
with no pairs; `min_distance`/`max_distance` the extrema of the signed
pair distances and `0` with no pairs.  The boundedness hypothesis
(`|d| ≤ f64::MAX`, true of every finite double) makes the
`f64::MAX`/`f64::MIN` fold seeds inert. -/
theorem surface_metrics_correct (r : ContactResults) (s : SurfaceMesh)
    (hid : ∀ p ∈ r.pairs, p.surface_a_face_id < s.face_areas.length)
    (hb : ∀ p ∈ r.pairs, |p.distance| ≤ f64MAX) :
    ∃ m, SurfaceMetrics.compute r s = some m ∧
      (m.unpaired_area = m.total_area - m.paired_area) ∧
      (r.pairs = [] →
        m.avg_distance = 0 ∧ m.min_distance = 0 ∧ m.max_distance = 0) ∧
      (r.pairs ≠ [] →
        m.avg_distance = specWeightedMean r s ∧
        (m.min_distance ∈ r.pairs.map ContactPair.distance ∧
          ∀ d ∈ r.pairs.map ContactPair.distance, m.min_distance ≤ d) ∧
        (m.max_distance ∈ r.pairs.map ContactPair.distance ∧
          ∀ d ∈ r.pairs.map ContactPair.distance, d ≤ m.max_distance)) := by
  have hmeval := metricsFold_eval s.face_areas r.pairs 0 0 0 f64MAX f64MIN hid
  obtain ⟨v, hv⟩ := varianceFold_some s.face_areas
    (if 0 < r.pairs.length then
      (0 + (r.pairs.map (fun p =>
        p.distance * s.face_areas.getD p.surface_a_face_id 0)).sum) /
      (0 + (r.pairs.map (fun p =>
        s.face_areas.getD p.surface_a_face_id 0)).sum)
     else 0) r.pairs 0 hid
  refine ⟨_, compute_eq_of r s _ v hmeval hv, rfl, ?_, ?_⟩
  · intro hemp
    have hlen : ¬ 0 < r.pairs.length := by rw [hemp]; simp
    refine ⟨?_, ?_, ?_⟩ <;>
      · show (if 0 < r.pairs.length then _ else _) = 0
        rw [if_neg hlen]
  · intro hne
    have hlen : 0 < r.pairs.length := List.length_pos.mpr hne
    obtain ⟨p0, hp0⟩ := List.exists_mem_of_ne_nil r.pairs hne
    have hd0 : p0.distance ∈ r.pairs.map ContactPair.distance :=
      List.mem_map.mpr ⟨p0, hp0, rfl⟩
    refine ⟨?_, ⟨?_, ?_⟩, ⟨?_, ?_⟩⟩
    · show (if 0 < r.pairs.length then _ else _) = _
      rw [if_pos hlen]
      show ((0 : ℝ) + (r.pairs.map (fun p =>
          p.distance * s.face_areas.getD p.surface_a_face_id 0)).sum) /
        (0 + (r.pairs.map (fun p =>
          s.face_areas.getD p.surface_a_face_id 0)).sum) =
        specWeightedMean r s
      simp only [zero_add]
      rfl
    · show (if 0 < r.pairs.length then _ else _) ∈ _
      rw [if_pos hlen]
      show List.foldl min f64MAX (r.pairs.map ContactPair.distance) ∈
        r.pairs.map ContactPair.distance
      rcases foldl_min_mem_or (r.pairs.map ContactPair.distance) f64MAX
        with hc | hc
      · -- the fold equals the seed: the head must equal the seed too
        have h1 : List.foldl min f64MAX (r.pairs.map ContactPair.distance)
            ≤ p0.distance :=
          foldl_min_le_mem _ _ _ hd0
        have h2 : p0.distance ≤ f64MAX := (abs_le.mp (hb p0 hp0)).2
        rw [hc] at h1
        have he : p0.distance = f64MAX := le_antisymm h2 h1
        rw [hc, ← he]
        exact hd0
      · exact hc
    · intro d hd
      show (if 0 < r.pairs.length then _ else _) ≤ d
      rw [if_pos hlen]
      show List.foldl min f64MAX (r.pairs.map ContactPair.distance) ≤ d
      exact foldl_min_le_mem _ _ _ hd
    · show (if 0 < r.pairs.length then _ else _) ∈ _
      rw [if_pos hlen]
      show List.foldl max f64MIN (r.pairs.map ContactPair.distance) ∈
        r.pairs.map ContactPair.distance
      rcases foldl_max_mem_or (r.pairs.map ContactPair.distance) f64MIN
        with hc | hc
      · have h1 : p0.distance ≤
            List.foldl max f64MIN (r.pairs.map ContactPair.distance) :=
          foldl_max_ge_mem _ _ _ hd0
        have h2 : f64MIN ≤ p0.distance := by
          have := (abs_le.mp (hb p0 hp0)).1
          rw [f64MIN, f64MAX] at *
          linarith
        rw [hc] at h1
        have he : p0.distance = f64MIN := le_antisymm h1 h2
        rw [hc, ← he]
        exact hd0
      · exact hc
    · intro d hd
      show d ≤ (if 0 < r.pairs.length then _ else _)
      rw [if_pos hlen]
      show d ≤ List.foldl max f64MIN (r.pairs.map ContactPair.distance)
      exact foldl_max_ge_mem _ _ _ hd

/-! ## Evaluation helpers for the witnesses -/

theorem norm_e3 : Vec3.norm ⟨0, 0, 1⟩ = 1 := by
  simp only [Vec3.norm]
  norm_num [Real.sqrt_one]

theorem dot_e3_e3 : Vec3.dot ⟨0, 0, 1⟩ ⟨0, 0, 1⟩ = 1 := by
  simp only [Vec3.dot]
  norm_num

theorem clampR_one : clampR 1 (-1) 1 = 1 := by
  rw [clampR]
  norm_num

theorem angle_e3_e3 : angle_between_vectors ⟨0, 0, 1⟩ ⟨0, 0, 1⟩ = 0 := by
  rw [angle_between_vectors, norm_e3, dot_e3_e3]
  rw [if_neg (by norm_num)]
  have h1 : (1 : ℝ) / (1 * 1) = 1 := by norm_num
  rw [h1, clampR_one, Real.arccos_one, zero_mul]

theorem sd_zero :
    signed_distance_to_plane ⟨0, 0, 0⟩ ⟨0, 0, 0⟩ ⟨0, 0, 1⟩ = 0 := by
  simp only [signed_distance_to_plane, Vec3.sub, Vec3.dot]
  norm_num

theorem proj_zero :
    project_point_to_plane ⟨0, 0, 0⟩ ⟨0, 0, 0⟩ ⟨0, 0, 1⟩ = ⟨0, 0, 0⟩ := by
  simp only [project_point_to_plane, signed_distance_to_plane, Vec3.sub,
    Vec3.dot, Vec3.smul, Vec3.mk.injEq]
  norm_num

/-- Full evaluation of the matcher on the one-face example surfaces. -/
theorem detect_eval1 :
    detect_contact_pairs surfA1 surfB1 crit1 enum1 = some res1 := by
  have hin : crit1.is_in_range (0 : ℝ) := by
    rw [crit1, ContactCriteria.is_in_range]
    norm_num
  have hang : crit1.is_angle_valid (0 : ℝ) := by
    rw [crit1, ContactCriteria.is_angle_valid]
    norm_num
  have habs : |(0 : ℝ)| < f64MAX := by
    rw [abs_zero, f64MAX]
    norm_num
  have hfbm : fbmLoop surfB1 crit1 0 ⟨0, 0, 0⟩ ⟨0, 0, 1⟩ [0] none f64MAX =
      some (some pair1) := by
    rw [fbmLoop]
    show (match surfB1.face_centroids.get? 0, surfB1.face_normals.get? 0 with
      | some cB, some nB => _ | _, _ => none) = _
    rw [show surfB1.face_centroids.get? 0 = some ⟨0, 0, 0⟩ from rfl,
        show surfB1.face_normals.get? 0 = some ⟨0, 0, 1⟩ from rfl]
    dsimp only
    rw [sd_zero, angle_e3_e3, if_pos hin, if_pos hang, if_pos habs, fbmLoop,
      proj_zero]
    rfl
  have hfb : find_best_match 0 surfA1 surfB1 crit1 (enum1 0) =
      some (some pair1) := by
    rw [find_best_match]
    rw [show surfA1.face_centroids.get? 0 = some ⟨0, 0, 0⟩ from rfl,
        show surfA1.face_normals.get? 0 = some ⟨0, 0, 1⟩ from rfl]
    dsimp only
    exact hfbm
  have hfr : frLoop surfA1 surfB1 crit1 enum1 [0] = some [some pair1] := by
    rw [frLoop, hfb, frLoop]
  rw [detect_contact_pairs]
  rw [show List.range surfA1.faces.length = [0] from rfl, hfr]
  rfl

/-- Full evaluation of the matcher on a negative-tolerance criteria
record: it is accepted and runs to completion. -/
theorem detect_evalNeg :
    detect_contact_pairs surfA1 surfB0 critNeg enumNone = some resNeg := by
  have hfb : find_best_match 0 surfA1 surfB0 critNeg (enumNone 0) =
      some none := by
    rw [find_best_match]
    rw [show surfA1.face_centroids.get? 0 = some ⟨0, 0, 0⟩ from rfl,
        show surfA1.face_normals.get? 0 = some ⟨0, 0, 1⟩ from rfl]
    dsimp only
    rw [show enumNone 0 = [] from rfl, fbmLoop]
  have hfr : frLoop surfA1 surfB0 critNeg enumNone [0] = some [none] := by
    rw [frLoop, hfb, frLoop]
  rw [detect_contact_pairs]
  rw [show List.range surfA1.faces.length = [0] from rfl, hfr]
  rfl

/-- C8: the core performs no validation of the criteria record: a record
with negative `max_gap_distance`, `max_penetration` and `max_normal_angle`
and a non-positive `search_radius_multiplier` is accepted by
`detect_contact_pairs`, which returns a result instead of a
`ConfigError`. -/
theorem negative_criteria_accepted :
    (critNeg.max_gap_distance < 0 ∧ critNeg.max_penetration < 0 ∧
      critNeg.max_normal_angle < 0 ∧ critNeg.search_radius_multiplier ≤ 0) ∧
    detect_contact_pairs surfA1 surfB0 critNeg enumNone = some resNeg := by
  constructor
  · rw [critNeg]
    norm_num
  · exact detect_evalNeg

/-- C10: `ContactResults::avg_distance` is the unweighted arithmetic mean
of the pair distances (`0` with no pairs), which differs from the
area-weighted `avg_distance` of `SurfaceMetrics::compute` on a result
with unequal A-face areas (and in-range A-face ids, so the metrics
computation completes without panicking). -/
theorem avg_distance_unweighted :
    (∀ r : ContactResults, r.pairs = [] → r.avg_distance = 0) ∧
    (∀ r : ContactResults, r.pairs ≠ [] →
      r.avg_distance =
        (r.pairs.map ContactPair.distance).sum / (r.pairs.length : ℝ)) ∧
    (∃ m, SurfaceMetrics.compute resC10 surfC10 = some m ∧
      resC10.avg_distance ≠ m.avg_distance ∧
      surfC10.face_areas.getD 0 0 ≠ surfC10.face_areas.getD 1 0) := by
  refine ⟨?_, ?_, ?_⟩
  · intro r hr
    rw [ContactResults.avg_distance, if_pos (List.isEmpty_iff.mpr hr)]
  · intro r hr
    rw [ContactResults.avg_distance,
      if_neg (by rw [List.isEmpty_iff]; exact hr)]
  · have hmf := metricsFold_eval surfC10.face_areas resC10.pairs
      0 0 0 f64MAX f64MIN resC10_ids_lt
    obtain ⟨v, hv⟩ := varianceFold_some surfC10.face_areas
      (if 0 < resC10.pairs.length then
        (0 + (resC10.pairs.map (fun p =>
          p.distance * surfC10.face_areas.getD p.surface_a_face_id 0)).sum) /
        (0 + (resC10.pairs.map (fun p =>
          surfC10.face_areas.getD p.surface_a_face_id 0)).sum)
       else 0) resC10.pairs 0 resC10_ids_lt
    refine ⟨_, compute_eq_of resC10 surfC10 _ v hmf hv, ?_, ?_⟩
    · have h1 : resC10.avg_distance = 1 / 2 := by
        rw [ContactResults.avg_distance]
        rw [if_neg (by rw [List.isEmpty_iff]; simp [resC10])]
        simp only [resC10, List.map_cons, List.map_nil, List.sum_cons,
          List.sum_nil, List.length_cons, List.length_nil]
        norm_num
      rw [h1]
      show (1 : ℝ) / 2 ≠
        ((0 : ℝ) + (resC10.pairs.map (fun p =>
          p.distance * surfC10.face_areas.getD p.surface_a_face_id 0)).sum) /
        (0 + (resC10.pairs.map (fun p =>
          surfC10.face_areas.getD p.surface_a_face_id 0)).sum)
      rw [show resC10.pairs =
        [⟨0, 0, 0, 0, ⟨0, 0, 0⟩⟩, ⟨1, 1, 1, 0, ⟨0, 0, 0⟩⟩] from rfl]
      simp only [List.map_cons, List.map_nil, List.sum_cons, List.sum_nil]
      rw [show surfC10.face_areas = [1, 3] from rfl]
      simp only [List.getD]
      norm_num
    · rw [show surfC10.face_areas = [1, 3] from rfl]
      simp only [List.getD]
      norm_num

theorem norm_zero_vec : Vec3.norm ⟨0, 0, 0⟩ = 0 := by
  simp only [Vec3.norm]
  norm_num [Real.sqrt_zero]

/-- The concrete enumeration `enum1` is exactly the in-radius candidate
set for A-face 0 of the example surfaces. -/
theorem enum1_spec : ∀ j, j ∈ enum1 0 ↔ (j < surfB1.faces.length ∧
    (Vec3.sub (surfB1.face_centroids.getD j default)
      (surfA1.face_centroids.getD 0 default)).norm ≤ crit1.search_radius) := by
  intro j
  constructor
  · intro hj
    have hj0 : j = 0 := by simpa [enum1] using hj
    subst hj0
    refine ⟨Nat.zero_lt_one, ?_⟩
    rw [show surfB1.face_centroids.getD 0 default = ⟨0, 0, 0⟩ from rfl,
      show surfA1.face_centroids.getD 0 default = ⟨0, 0, 0⟩ from rfl,
      show Vec3.sub ⟨0, 0, 0⟩ ⟨0, 0, 0⟩ = ⟨0, 0, 0⟩ by simp [Vec3.sub],
      norm_zero_vec, crit1, ContactCriteria.search_radius]
    norm_num
  · rintro ⟨hj, -⟩
    rw [show surfB1.faces.length = 1 from rfl] at hj
    have hj0 : j = 0 := by omega
    subst hj0
    simp [enum1]

/-- Witness for C3 at the one-face example: the emitted pair satisfies the
stored criteria bounds. -/
theorem detect_pairs_within_criteria_witness :
    (-res1.criteria.max_penetration ≤ pair1.distance ∧
      pair1.distance ≤ res1.criteria.max_gap_distance) ∧
    pair1.normal_angle ≤ res1.criteria.max_normal_angle :=
  detect_pairs_within_criteria surfA1 surfB1 crit1 enum1 res1 detect_eval1
    pair1 (by rw [show res1.pairs = [pair1] from rfl]; exact List.mem_cons_self pair1 [])

/-- Witness for C4 at the one-face example. -/
theorem detect_pairs_partition_witness :
    ((0 ∈ res1.pairs.map ContactPair.surface_a_face_id ∨ 0 ∈ res1.unpaired_a)
      ↔ 0 < surfA1.faces.length) ∧
    (0 ∈ res1.pairs.map ContactPair.surface_b_face_id →
      0 ∉ res1.unpaired_b) := by
  have h := detect_pairs_partition surfA1 surfB1 crit1 enum1 res1 rfl
    detect_eval1
  exact ⟨h.1.1 0, h.2.2 0⟩

/-- Witness for C5 at the one-face example: the emitted pair's B-face is
an in-radius candidate, passes both tests and carries the computed
distance. -/
theorem detect_pairs_best_match_witness :
    pair1.surface_b_face_id ∈ enum1 0 ∧
    cand_passes surfA1 surfB1 crit1 0 pair1.surface_b_face_id ∧
    pair1.distance = cand_distance surfA1 surfB1 0 pair1.surface_b_face_id := by
  have h := (detect_pairs_best_match surfA1 surfB1 crit1 enum1 res1 0
    detect_eval1 enum1_spec).1 pair1
    (by rw [show res1.pairs = [pair1] from rfl]
        exact List.mem_cons_self pair1 []) rfl
  exact ⟨h.1, h.2.1, h.2.2.1⟩

/-- Witness for C7 at the one-face example. -/
theorem detect_contact_pairs_total_witness :
    (detect_contact_pairs surfA1 surfB1 crit1 enum1).isSome = true := by
  obtain ⟨r, hr⟩ := detect_contact_pairs_total surfA1 surfB1 crit1 enum1
    rfl rfl rfl rfl
    (by intro i j hj
        have hj0 : j = 0 := by simpa [enum1] using hj
        subst hj0
        exact Nat.zero_lt_one)
  rw [hr]
  rfl

/-- Witness for C9 at the two-pair example. -/
theorem surface_metrics_correct_witness :
    (∀ p ∈ resC10.pairs, p.surface_a_face_id < surfC10.face_areas.length) ∧
    (∀ p ∈ resC10.pairs, |p.distance| ≤ f64MAX) ∧
    ∃ m, SurfaceMetrics.compute resC10 surfC10 = some m ∧
      m.unpaired_area = m.total_area - m.paired_area ∧
      m.avg_distance = specWeightedMean resC10 surfC10 := by
  obtain ⟨m, hm, h1, _, h3⟩ :=
    surface_metrics_correct resC10 surfC10 resC10_ids_lt resC10_dist_bounded
  exact ⟨resC10_ids_lt, resC10_dist_bounded, m, hm, h1,
    (h3 (by simp [resC10])).1⟩

/-- Witness for C10 at the two-pair example. -/
theorem avg_distance_unweighted_witness :
    resC10.pairs ≠ [] ∧
    resC10.avg_distance =
      (resC10.pairs.map ContactPair.distance).sum / (resC10.pairs.length : ℝ) :=
  ⟨by simp [resC10], avg_distance_unweighted.2.1 resC10 (by simp [resC10])⟩

/-- C1 (code-bug evidence): in `meshTriple` the face (4,5,6,7) is
contained by the three elements 0, 1, 2 — more than two — yet
`extract_surface` does not fail with `InvalidMeshTopology`: the face is
silently dropped from the boundary set and extraction succeeds with an
empty patch list.  (The boundary map is empty, so the iteration-order
parameters are trivially the valid ones.) -/
theorem overshared_face_no_topology_error :
    ((⟨4, 5, 6, 7⟩ : QuadFace), [0, 1, 2]) ∈ build_face_adjacency meshTriple ∧
    extract_boundary_faces (build_face_adjacency meshTriple) = [] ∧
    extract_surface meshTriple
      (extract_boundary_faces (build_face_adjacency meshTriple)) [] =
      .ok [] := by
  refine ⟨by decide, by decide, ?_⟩
  rfl

/-! ## Order-dependence of extraction (claim C2) -/

/-- The flood-fill output only ever appends to its accumulator. -/
theorem bfsLoop_acc_prefix (adj : List (ℕ × List ℕ)) (normals : List Vec3)
    (sN : Vec3) :
    ∀ (fuel : ℕ) (queue vis acc : List ℕ),
      ∃ t, (bfsLoop adj normals sN fuel queue vis acc).1 = acc ++ t := by
  intro fuel
  induction fuel with
  | zero =>
    intro queue vis acc
    cases queue with
    | nil => exact ⟨[], by simp [bfsLoop]⟩
    | cons c q => exact ⟨[], by simp [bfsLoop]⟩
  | succ fuel ih =>
    intro queue vis acc
    cases queue with
    | nil => exact ⟨[], by simp [bfsLoop]⟩
    | cons cur qs =>
      rw [bfsLoop]
      obtain ⟨t, ht⟩ := ih _ _ (acc ++ [cur])
      exact ⟨cur :: t, by rw [ht]; simp⟩

/-- Dequeuing: with fuel to spare, the head of the queue is the next
element appended to the accumulator. -/
theorem bfsLoop_pop (adj : List (ℕ × List ℕ)) (normals : List Vec3)
    (sN : Vec3) (fuel cur : ℕ) (qs vis acc : List ℕ) :
    ∃ t, (bfsLoop adj normals sN (fuel + 1) (cur :: qs) vis acc).1 =
      acc ++ cur :: t := by
  have h : ∀ (q v : List ℕ), ∃ t,
      (bfsLoop adj normals sN fuel q v (acc ++ [cur])).1 = acc ++ cur :: t := by
    intro q v
    obtain ⟨t, ht⟩ := bfsLoop_acc_prefix adj normals sN fuel q v (acc ++ [cur])
    exact ⟨t, by rw [ht]; simp⟩
  rw [bfsLoop]
  exact h _ _

theorem collectExcept_ok {α β : Type _}
    (f : α → Except ContactDetectorError β) :
    ∀ l : List α, (∀ a ∈ l, ∃ b, f a = .ok b) →
      ∃ bs, collectExcept f l = .ok bs := by
  intro l
  induction l with
  | nil => intro _; exact ⟨[], rfl⟩
  | cons a rest ih =>
    intro h
    obtain ⟨b, hb⟩ := h a (List.mem_cons_self a rest)
    obtain ⟨bs, hbs⟩ := ih (fun x hx => h x (List.mem_cons_of_mem _ hx))
    exact ⟨b :: bs, by rw [collectExcept, hb, hbs]⟩

theorem build_surface_mesh_ok (name : String) (faces : List QuadFace)
    (nodes : List Vec3)
    (h : ∀ f ∈ faces, ∃ t, face_props f nodes = .ok t) :
    ∃ sm, build_surface_mesh name faces nodes = .ok sm ∧
      sm.faces = faces ∧ sm.part_name = name := by
  obtain ⟨props, hp⟩ := collectExcept_ok _ faces h
  exact ⟨_, by rw [build_surface_mesh, hp], rfl, rfl⟩

theorem adjGet_mem (adj : List (ℕ × List ℕ)) (i : ℕ) :
    ∀ x ∈ adjGet adj i, ∃ kv ∈ adj, x ∈ kv.2 := by
  intro x hx
  rw [adjGet] at hx
  rcases hf : adj.find? (fun kv => kv.1 == i) with _ | kv
  · rw [hf] at hx
    cases hx
  · rw [hf] at hx
    exact ⟨kv, List.mem_of_find?_eq_some hf, hx⟩

/-- Elements collected by the neighbor-expansion fold come from the
incoming queue or from the neighbor list. -/
theorem expand_fold_mem (seedN : Vec3) (normals : List Vec3) :
    ∀ (nbs q v : List ℕ) (x : ℕ),
      x ∈ (List.foldl (fun (qv : List ℕ × List ℕ) nb =>
        if nb ∈ qv.2 then qv
        else if angle_between_vectors seedN (normals.getD nb default) ≤
            MAX_COPLANAR_ANGLE then (qv.1 ++ [nb], qv.2 ++ [nb])
        else qv) (q, v) nbs).1 →
      x ∈ q ∨ x ∈ nbs := by
  intro nbs
  induction nbs with
  | nil =>
    intro q v x hx
    exact Or.inl hx
  | cons nb rest ih =>
    intro q v x hx
    simp only [List.foldl_cons] at hx
    by_cases h1 : nb ∈ v
    · rw [if_pos h1] at hx
      rcases ih q v x hx with h | h
      · exact Or.inl h
      · exact Or.inr (List.mem_cons_of_mem _ h)
    · rw [if_neg h1] at hx
      by_cases h2 : angle_between_vectors seedN (normals.getD nb default) ≤
          MAX_COPLANAR_ANGLE
      · rw [if_pos h2] at hx
        rcases ih _ _ x hx with h | h
        · rcases List.mem_append.mp h with h | h
          · exact Or.inl h
          · exact Or.inr (by simp at h; simp [h])
        · exact Or.inr (List.mem_cons_of_mem _ h)
      · rw [if_neg h2] at hx
        rcases ih q v x hx with h | h
        · exact Or.inl h
        · exact Or.inr (List.mem_cons_of_mem _ h)

/-- Every face index the flood fill emits is in range, provided the
adjacency lists and the initial queue are. -/
theorem bfsLoop_mem_lt (adj : List (ℕ × List ℕ)) (normals : List Vec3)
    (sN : Vec3) (n : ℕ) (hadj : ∀ kv ∈ adj, ∀ x ∈ kv.2, x < n) :
    ∀ (fuel : ℕ) (queue vis acc : List ℕ),
      (∀ x ∈ queue, x < n) → (∀ x ∈ acc, x < n) →
      ∀ x ∈ (bfsLoop adj normals sN fuel queue vis acc).1, x < n := by
  intro fuel
  induction fuel with
  | zero =>
    intro queue vis acc hq ha x hx
    cases queue with
    | nil => simp only [bfsLoop] at hx; exact ha x hx
    | cons c q => simp only [bfsLoop] at hx; exact ha x hx
  | succ fuel ih =>
    intro queue vis acc hq ha x hx
    cases queue with
    | nil => simp only [bfsLoop] at hx; exact ha x hx
    | cons cur qs =>
      rw [bfsLoop] at hx
      refine ih _ _ (acc ++ [cur]) ?_ ?_ x hx
      · intro y hy
        rcases expand_fold_mem sN normals (adjGet adj cur) qs vis y hy
          with h | h
        · exact hq y (List.mem_cons_of_mem _ h)
        · obtain ⟨kv, hkv, hykv⟩ := adjGet_mem adj cur y h
          exact hadj kv hkv y hykv
      · intro y hy
        rcases List.mem_append.mp hy with h | h
        · exact ha y h
        · have hyc : y = cur := by simpa using h
          have := hq cur (List.mem_cons_self cur qs)
          omega

theorem getD_mem {α : Type _} (l : List α) (x : ℕ) (d : α)
    (hx : x < l.length) : l.getD x d ∈ l := by
  rw [List.getD_of_get? d (List.get?_eq_get hx)]
  exact List.get_mem l x hx

/-- The seed loop succeeds and only appends patches, provided every face
has computable properties and the adjacency lists are in range. -/
theorem subdivideLoop_ok_prefix (faces : List QuadFace) (nodes : List Vec3)
    (bname : String) (adj : List (ℕ × List ℕ)) (normals : List Vec3)
    (hface : ∀ f ∈ faces, ∃ t, face_props f nodes = .ok t)
    (hadj : ∀ kv ∈ adj, ∀ x ∈ kv.2, x < faces.length) :
    ∀ (seeds : List ℕ) (vis : List ℕ) (acc : List SurfaceMesh),
      (∀ s ∈ seeds, s < faces.length) →
      ∃ t, subdivideLoop faces nodes bname adj normals seeds vis acc =
        .ok (acc ++ t) := by
  intro seeds
  induction seeds with
  | nil =>
    intro vis acc _
    exact ⟨[], by simp [subdivideLoop]⟩
  | cons s rest ih =>
    intro vis acc hs
    rw [subdivideLoop]
    by_cases hv : s ∈ vis
    · rw [if_pos hv]
      exact ih vis acc (fun x hx => hs x (List.mem_cons_of_mem _ hx))
    · rw [if_neg hv]
      have hbfs : ∀ x ∈ (bfsLoop adj normals (normals.getD s default)
          faces.length [s] (vis ++ [s]) []).1, x < faces.length := by
        refine bfsLoop_mem_lt adj normals _ faces.length hadj _ _ _ _ ?_ ?_
        · intro y hy
          have hys : y = s := by simpa using hy
          have := hs s (List.mem_cons_self s rest)
          omega
        · intro y hy
          cases hy
      have hpatch : ∀ f ∈ (bfsLoop adj normals (normals.getD s default)
          faces.length [s] (vis ++ [s]) []).1.map
            (fun i => faces.getD i ⟨0, 0, 0, 0⟩),
          ∃ t, face_props f nodes = .ok t := by
        intro f hf
        obtain ⟨i, hi, hfi⟩ := List.mem_map.mp hf
        subst hfi
        exact hface _ (getD_mem faces i ⟨0, 0, 0, 0⟩ (hbfs i hi))
      obtain ⟨sm, hsm, -, -⟩ := build_surface_mesh_ok
        (bname ++ ":patch_" ++ toString acc.length) _ nodes hpatch
      obtain ⟨t, ht⟩ := ih ((bfsLoop adj normals (normals.getD s default)
          faces.length [s] (vis ++ [s]) []).2) (acc ++ [sm])
        (fun x hx => hs x (List.mem_cons_of_mem _ hx))
      refine ⟨sm :: t, ?_⟩
      dsimp only
      rw [hsm]
      dsimp only
      rw [ht]
      simp

/-- The first patch of a subdivision run starts with the first face of
the face list (seed 0 is dequeued first). -/
theorem subdivideLoop_head (faces : List QuadFace) (nodes : List Vec3)
    (bname : String) (adj : List (ℕ × List ℕ)) (normals : List Vec3)
    (hface : ∀ f ∈ faces, ∃ t, face_props f nodes = .ok t)
    (hadj : ∀ kv ∈ adj, ∀ x ∈ kv.2, x < faces.length)
    (rest : List ℕ) (hrest : ∀ s ∈ rest, s < faces.length)
    (hlen : 0 < faces.length) :
    ∃ sm t, subdivideLoop faces nodes bname adj normals (0 :: rest) [] [] =
        .ok (sm :: t) ∧
      ∃ ft, sm.faces = faces.getD 0 ⟨0, 0, 0, 0⟩ :: ft := by
  rw [subdivideLoop]
  rw [if_neg (by simp)]
  obtain ⟨n1, hn1⟩ := Nat.exists_eq_add_of_lt hlen
  have hn1' : faces.length = n1 + 1 := by omega
  have hpop : ∃ t, (bfsLoop adj normals (normals.getD 0 default)
      faces.length [0] ([] ++ [0]) []).1 = 0 :: t := by
    rw [hn1']
    obtain ⟨t, ht⟩ := bfsLoop_pop adj normals (normals.getD 0 default)
      n1 0 [] ([] ++ [0]) []
    exact ⟨t, by rw [ht]; simp⟩
  obtain ⟨bt, hbt⟩ := hpop
  have hbfs : ∀ x ∈ (bfsLoop adj normals (normals.getD 0 default)
      faces.length [0] ([] ++ [0]) []).1, x < faces.length := by
    refine bfsLoop_mem_lt adj normals _ faces.length hadj _ _ _ _ ?_ ?_
    · intro y hy
      have hy0 : y = 0 := by simpa using hy
      omega
    · intro y hy
      cases hy
  have hpatch : ∀ f ∈ (bfsLoop adj normals (normals.getD 0 default)
      faces.length [0] ([] ++ [0]) []).1.map
        (fun i => faces.getD i ⟨0, 0, 0, 0⟩),
      ∃ t, face_props f nodes = .ok t := by
    intro f hf
    obtain ⟨i, hi, hfi⟩ := List.mem_map.mp hf
    subst hfi
    exact hface _ (getD_mem faces i ⟨0, 0, 0, 0⟩ (hbfs i hi))
  obtain ⟨sm, hsm, hsmf, -⟩ := build_surface_mesh_ok
    (bname ++ ":patch_" ++ toString ([] : List SurfaceMesh).length) _ nodes
    hpatch
  obtain ⟨t, ht⟩ := subdivideLoop_ok_prefix faces nodes bname adj normals
    hface hadj rest ((bfsLoop adj normals (normals.getD 0 default)
      faces.length [0] ([] ++ [0]) []).2) ([] ++ [sm]) hrest
  refine ⟨sm, t, ?_, ?_⟩
  · dsimp only
    rw [hsm]
    dsimp only
    rw [ht]
    simp
  · rw [hsmf, hbt]
    exact ⟨bt.map (fun i => faces.getD i ⟨0, 0, 0, 0⟩), by simp⟩

theorem sqrt_four : Real.sqrt 4 = 2 := by
  rw [show (4 : ℝ) = 2 ^ 2 by norm_num]
  exact Real.sqrt_sq (by norm_num)

theorem norm_two_of (v : Vec3)
    (hv : v.x * v.x + v.y * v.y + v.z * v.z = 4) : v.norm = 2 := by
  rw [Vec3.norm, hv, sqrt_four]

/-- A face whose diagonal cross product has length 2 has well-defined
normal, centroid and area. -/
theorem face_props_ok_of (f : QuadFace) (nodes : List Vec3)
    (n0 n1 n2 n3 : Vec3)
    (h0 : get_node nodes f.n0 = .ok n0) (h1 : get_node nodes f.n1 = .ok n1)
    (h2 : get_node nodes f.n2 = .ok n2) (h3 : get_node nodes f.n3 = .ok n3)
    (hn : (Vec3.cross (Vec3.sub n2 n0) (Vec3.sub n3 n1)).norm = 2) :
    ∃ t, face_props f nodes = .ok t := by
  have hnorm : compute_face_normal f nodes =
      .ok ((Vec3.cross (Vec3.sub n2 n0) (Vec3.sub n3 n1)).divScalar 2) := by
    unfold compute_face_normal
    rw [h0, h1, h2, h3]
    dsimp only
    rw [hn]
    rw [if_neg (by norm_num)]
  have hcent : compute_face_centroid f nodes =
      .ok (Vec3.divScalar (Vec3.add (Vec3.add (Vec3.add n0 n1) n2) n3) 4) := by
    unfold compute_face_centroid
    rw [h0, h1, h2, h3]
  have harea : compute_face_area f nodes = .ok (2 / 2) := by
    unfold compute_face_area
    rw [h0, h1, h2, h3]
    dsimp only
    rw [hn]
    rw [if_neg (by norm_num)]
  refine ⟨(((Vec3.cross (Vec3.sub n2 n0) (Vec3.sub n3 n1)).divScalar 2),
    (Vec3.divScalar (Vec3.add (Vec3.add (Vec3.add n0 n1) n2) n3) 4),
    2 / 2), ?_⟩
  unfold face_props
  rw [hnorm]
  dsimp only
  rw [hcent]
  dsimp only
  rw [harea]

/-- Every cube boundary face has well-defined geometric properties. -/
theorem cubeFace_props_ok :
    ∀ f ∈ cubeFaceList, ∃ t, face_props f cubeNodes = .ok t := by
  intro f hf
  have hm : f = ⟨0, 1, 2, 3⟩ ∨ f = ⟨4, 5, 6, 7⟩ ∨ f = ⟨0, 1, 5, 4⟩ ∨
      f = ⟨1, 2, 6, 5⟩ ∨ f = ⟨2, 3, 7, 6⟩ ∨ f = ⟨0, 3, 7, 4⟩ := by
    simpa [cubeFaceList] using hf
  rcases hm with hm | hm | hm | hm | hm | hm <;> subst hm
  · refine face_props_ok_of _ cubeNodes ⟨0, 0, 0⟩ ⟨1, 0, 0⟩ ⟨1, 1, 0⟩ ⟨0, 1, 0⟩
      rfl rfl rfl rfl ?_
    refine norm_two_of _ ?_
    simp only [Vec3.sub, Vec3.cross]
    norm_num
  · refine face_props_ok_of _ cubeNodes ⟨0, 0, 1⟩ ⟨1, 0, 1⟩ ⟨1, 1, 1⟩ ⟨0, 1, 1⟩
      rfl rfl rfl rfl ?_
    refine norm_two_of _ ?_
    simp only [Vec3.sub, Vec3.cross]
    norm_num
  · refine face_props_ok_of _ cubeNodes ⟨0, 0, 0⟩ ⟨1, 0, 0⟩ ⟨1, 0, 1⟩ ⟨0, 0, 1⟩
      rfl rfl rfl rfl ?_
    refine norm_two_of _ ?_
    simp only [Vec3.sub, Vec3.cross]
    norm_num
  · refine face_props_ok_of _ cubeNodes ⟨1, 0, 0⟩ ⟨1, 1, 0⟩ ⟨1, 1, 1⟩ ⟨1, 0, 1⟩
      rfl rfl rfl rfl ?_
    refine norm_two_of _ ?_
    simp only [Vec3.sub, Vec3.cross]
    norm_num
  · refine face_props_ok_of _ cubeNodes ⟨1, 1, 0⟩ ⟨0, 1, 0⟩ ⟨0, 1, 1⟩ ⟨1, 1, 1⟩
      rfl rfl rfl rfl ?_
    refine norm_two_of _ ?_
    simp only [Vec3.sub, Vec3.cross]
    norm_num
  · refine face_props_ok_of _ cubeNodes ⟨0, 0, 0⟩ ⟨0, 1, 0⟩ ⟨0, 1, 1⟩ ⟨0, 0, 1⟩
      rfl rfl rfl rfl ?_
    refine norm_two_of _ ?_
    simp only [Vec3.sub, Vec3.cross]
    norm_num

theorem cubeFaceRev_props_ok :
    ∀ f ∈ cubeFaceListRev, ∃ t, face_props f cubeNodes = .ok t := by
  intro f hf
  refine cubeFace_props_ok f ?_
  have : f ∈ cubeFaceListRev := hf
  simp only [cubeFaceListRev, List.mem_cons, List.not_mem_nil, or_false]
    at this
  simp only [cubeFaceList, List.mem_cons, List.not_mem_nil, or_false]
  tauto

/-- Run of the extractor over the cube with the insertion iteration
order: the first patch starts with the bottom face (0,1,2,3). -/
theorem extract_cube_run1 :
    ∃ p t, extract_surface cubeMesh cubeBoundary ["B"] = .ok (p :: t) ∧
      ∃ ft, p.faces = (⟨0, 1, 2, 3⟩ : QuadFace) :: ft := by
  obtain ⟨normals, hN⟩ := collectExcept_ok
    (fun f => compute_face_normal f cubeNodes) cubeFaceList
    (fun f hf => by
      obtain ⟨⟨n, c, a⟩, ht⟩ := cubeFace_props_ok f hf
      unfold face_props at ht
      rcases hn : compute_face_normal f cubeNodes with e | v
      · rw [hn] at ht
        cases ht
      · exact ⟨v, hn⟩)
  obtain ⟨sm, t, hsub, ft, hft⟩ := subdivideLoop_head cubeFaceList cubeNodes
    "B" (build_boundary_face_adjacency cubeFaceList) normals
    cubeFace_props_ok (by decide) [1, 2, 3, 4, 5] (by decide) (by decide)
  refine ⟨sm, t, ?_, ⟨ft, by rw [hft]; rfl⟩⟩
  rw [extract_surface, group_by_block]
  rw [show groupFacesLoop cubeMesh cubeBoundary [] =
    .ok [("B", cubeFaceList)] from rfl]
  dsimp only
  rw [groupBlocksLoop]
  rw [show lookupBlock [("B", cubeFaceList)] "B" = cubeFaceList from rfl]
  rw [show cubeMesh.nodes = cubeNodes from rfl]
  rw [subdivide_into_surface_patches]
  rw [if_neg (by decide)]
  rw [hN]
  dsimp only
  rw [show List.range cubeFaceList.length = 0 :: [1, 2, 3, 4, 5] from rfl]
  rw [hsub]
  dsimp only
  rw [groupBlocksLoop]
  simp

/-- Run of the extractor over the cube with the reversed iteration order:
the first patch starts with the left face (0,3,7,4). -/
theorem extract_cube_run2 :
    ∃ p t, extract_surface cubeMesh cubeBoundary.reverse ["B"] =
        .ok (p :: t) ∧
      ∃ ft, p.faces = (⟨0, 3, 7, 4⟩ : QuadFace) :: ft := by
  obtain ⟨normals, hN⟩ := collectExcept_ok
    (fun f => compute_face_normal f cubeNodes) cubeFaceListRev
    (fun f hf => by
      obtain ⟨⟨n, c, a⟩, ht⟩ := cubeFaceRev_props_ok f hf
      unfold face_props at ht
      rcases hn : compute_face_normal f cubeNodes with e | v
      · rw [hn] at ht
        cases ht
      · exact ⟨v, hn⟩)
  obtain ⟨sm, t, hsub, ft, hft⟩ := subdivideLoop_head cubeFaceListRev
    cubeNodes "B" (build_boundary_face_adjacency cubeFaceListRev) normals
    cubeFaceRev_props_ok (by decide) [1, 2, 3, 4, 5] (by decide) (by decide)
  refine ⟨sm, t, ?_, ⟨ft, by rw [hft]; rfl⟩⟩
  rw [extract_surface, group_by_block]
  rw [show groupFacesLoop cubeMesh cubeBoundary.reverse [] =
    .ok [("B", cubeFaceListRev)] from rfl]
  dsimp only
  rw [groupBlocksLoop]
  rw [show lookupBlock [("B", cubeFaceListRev)] "B" = cubeFaceListRev from rfl]
  rw [show cubeMesh.nodes = cubeNodes from rfl]
  rw [subdivide_into_surface_patches]
  rw [if_neg (by decide)]
  rw [hN]
  dsimp only
  rw [show List.range cubeFaceListRev.length = 0 :: [1, 2, 3, 4, 5] from rfl]
  rw [hsub]
  dsimp only
  rw [groupBlocksLoop]
  simp

/-- C2 (code-bug evidence): on the single-cube mesh, iterating the
boundary-face map in insertion order versus reversed order — both valid
iteration orders of the same hash map, whose order Rust randomizes per
process — produces different patch lists (the first patch starts with a
different face), so `extract_surface` is not independent of hash-map
iteration order. -/
theorem extraction_order_dependent :
    cubeBoundary = extract_boundary_faces (build_face_adjacency cubeMesh) ∧
    cubeBoundary.reverse.Perm cubeBoundary ∧
    (∃ l1, extract_surface cubeMesh cubeBoundary ["B"] = .ok l1) ∧
    (∃ l2, extract_surface cubeMesh cubeBoundary.reverse ["B"] = .ok l2) ∧
    extract_surface cubeMesh cubeBoundary ["B"] ≠
      extract_surface cubeMesh cubeBoundary.reverse ["B"] := by
  obtain ⟨p1, t1, h1, ft1, hf1⟩ := extract_cube_run1
  obtain ⟨p2, t2, h2, ft2, hf2⟩ := extract_cube_run2
  refine ⟨by decide, List.reverse_perm cubeBoundary, ⟨p1 :: t1, h1⟩,
    ⟨p2 :: t2, h2⟩, ?_⟩
  intro heq
  rw [h1, h2] at heq
  injection heq with hl
  injection hl with hp ht
  rw [hp] at hf1
  have hc := hf1.symm.trans hf2
  injection hc with hface htail
  have : (⟨0, 1, 2, 3⟩ : QuadFace) ≠ ⟨0, 3, 7, 4⟩ := by decide
  exact this hface

end ContactDetector
